import Mathlib

/-!
# Zotero library visualizer: record normalisation and aggregation

A shallow embedding of `src/js/zotero-api.js` (`processItems`) and
`src/js/data-processor.js` (`prepareTimelineData`, `prepareStreamGraphData`,
`getTopTagsForYear`), together with the fragment of JavaScript they run on:
plain objects used as counting maps (own properties in creation order, the
members inherited from `Object.prototype`, the key order of `Object.entries`),
`Array.prototype.sort`, `Array.prototype.slice`, `parseInt`, `String.prototype.trim`
and the regular expression `/\d{4}/`.

Numbers are natural numbers; `NaN` is kept apart where an operation can produce it.
The objects keyed by year are modelled for years that are safe integers (`YearsInRange`),
where `String(year)` is the decimal numeral of the year.
-/

namespace ZoteroVisualizer

/-! ## Strings and numbers -/

/-- Value of a decimal digit string, most significant digit first. -/
def decimalValue (ds : List Char) : Nat :=
  ds.foldl (fun acc c => acc * 10 + (c.toNat - 48)) 0

/-- `parseInt(s, 10)` for a string that starts neither with white space nor with a sign
(every call in the sources passes a digit string): the value of the longest prefix of
decimal digits, and `NaN` (here `none`) when the string does not start with a digit. -/
def parseInt (s : String) : Option Nat :=
  let ds := s.data.takeWhile Char.isDigit
  if ds = [] then none else some (decimalValue ds)

/-- Decimal digits of `n`, most significant first; `fuel` bounds the number of digits. -/
def decimalDigits : Nat → Nat → List Char
  | 0, _ => []
  | fuel + 1, n =>
    if n < 10 then [Nat.digitChar n]
    else decimalDigits fuel (n / 10) ++ [Nat.digitChar (n % 10)]

/-- `String(n)` / `n.toString()` for a non-negative integer `n` below `10^21`: its
decimal numeral. From `10^21` on JavaScript prints exponent notation, which this function
does not model; the properties of the year-keyed objects are stated under `YearsInRange`.
This is also the property key under which `obj[n]` is stored. -/
def numberToString (n : Nat) : String :=
  String.mk (decimalDigits (n + 1) n)

/-- `String(x)` for a number that may be `NaN`. -/
def jsNumberToString : Option Nat → String
  | some n => numberToString n
  | none => "NaN"

/-- White space and line terminators of ECMAScript, the characters removed by `trim`. -/
def isWhiteSpace (c : Char) : Bool :=
  decide (c.toNat ∈ [0x09, 0x0A, 0x0B, 0x0C, 0x0D, 0x20, 0xA0, 0x1680, 0x2028, 0x2029,
    0x202F, 0x205F, 0x3000, 0xFEFF]) || (decide (0x2000 ≤ c.toNat) && decide (c.toNat ≤ 0x200A))

/-- `String.prototype.trim`. -/
def trim (s : String) : String :=
  String.mk ((s.data.dropWhile isWhiteSpace).reverse.dropWhile isWhiteSpace).reverse

/-- Leftmost match of the regular expression `/\d{4}/`: the first position at which four
consecutive decimal digits start, returning those four characters. -/
def matchFourDigits : List Char → Option (List Char)
  | [] => none
  | c :: cs =>
    if ((c :: cs).take 4).length = 4 ∧ ((c :: cs).take 4).all Char.isDigit = true
    then some ((c :: cs).take 4)
    else matchFourDigits cs

/-! ## `zotero-api.js`: raw records and `processItems` -/

/-- A raw tag descriptor `{ tag: ... }`. -/
structure RawTag where
  tag : String
deriving DecidableEq

/-- A raw creator descriptor; each field may be missing. -/
structure RawCreator where
  name : Option String
  firstName : Option String
  lastName : Option String
deriving DecidableEq

/-- The `data` part of a raw record. -/
structure RawData where
  key : String
  title : Option String
  date : Option String
  tags : Option (List RawTag)
  creators : Option (List RawCreator)
  itemType : String
  publicationTitle : Option String
deriving DecidableEq

/-- A raw record of the Zotero API. -/
structure RawItem where
  data : RawData
deriving DecidableEq

/-- A processed item. The year is a non-negative integer, or `none` for the JavaScript
`null`; see `YearsInRange` for the years on which the model of the year-keyed objects
agrees with JavaScript. -/
structure Item where
  key : String
  title : String
  year : Option Nat
  tags : List String
  creators : List String
  itemType : String
  publicationTitle : String
  date : String
deriving DecidableEq

/-- The expression `s || dflt` for an optional string: `undefined` and the empty string
are falsy. -/
def strOr (s : Option String) (dflt : String) : String :=
  match s with
  | some v => if v = "" then dflt else v
  | none => dflt

/-- Year extraction of `processItems` (lines 86-94): `null` unless `data.date` is truthy
and `/\d{4}/` matches, then `parseInt` of the match. `parseInt` of four digits is never
`NaN`, so `none` in the result always stands for `null`. -/
def extractYear (date : Option String) : Option Nat :=
  match date with
  | none => none
  | some d =>
    if d = "" then none
    else
      match matchFourDigits d.data with
      | none => none
      | some yearMatch => parseInt (String.mk yearMatch)

/-- The name computed for one creator (lines 100-104); `if (creator.name)` holds when
the combined name is a non-empty string. -/
def creatorName (creator : RawCreator) : String :=
  if strOr creator.name "" ≠ "" then strOr creator.name ""
  else trim (strOr creator.firstName "" ++ " " ++ strOr creator.lastName "")

/-- Creator extraction of `processItems` (lines 99-105). -/
def extractCreators (creators : Option (List RawCreator)) : List String :=
  match creators with
  | some cs => (cs.map creatorName).filter (fun name => decide (name ≠ ""))
  | none => []

/-- The object built for one raw record by the `map` callback of `processItems`. -/
def processItem (item : RawItem) : Item :=
  let data := item.data
  { key := data.key
    title := strOr data.title "Untitled"
    year := extractYear data.date
    tags := match data.tags with
      | some ts => ts.map (fun t => t.tag)
      | none => []
    creators := extractCreators data.creators
    itemType := data.itemType
    publicationTitle := strOr data.publicationTitle ""
    date := strOr data.date "" }

/-- The function `processItems` of `zotero-api.js`. -/
def processItems (items : List RawItem) : List Item :=
  (items.map processItem).filter (fun item => decide (item.year ≠ none))

/-! ## Values, plain objects and array operations of `data-processor.js` -/

/-- The values that reach the counting objects and the results of the aggregation
functions. `builtin name` is the function (or, for `__proto__`, the object) that every
plain object inherits from `Object.prototype` under `name`; `text name k` is the string
`String(builtin name)` followed by `k` characters `1`, which is what `+ 1` makes of it. -/
inductive JSVal where
  | undefined
  | num (n : Nat)
  | nan
  | builtin (name : String)
  | text (name : String) (ones : Nat)
deriving DecidableEq

/-- Names of the properties of `Object.prototype`, inherited by every object literal. -/
def objectPrototypeNames : List String :=
  ["constructor", "__defineGetter__", "__defineSetter__", "hasOwnProperty",
   "__lookupGetter__", "__lookupSetter__", "isPrototypeOf", "propertyIsEnumerable",
   "toString", "valueOf", "__proto__", "toLocaleString"]

/-- The string a `text` value stands for, with the text of a built-in function as V8
prints it. -/
def textString (name : String) (ones : Nat) : String :=
  (if name = "__proto__" then "[object Object]"
   else if name = "constructor" then "function Object() \x7b [native code] \x7d"
   else "function " ++ name ++ "() \x7b [native code] \x7d") ++ String.mk (List.replicate ones '1')

/-- An object created by `{}`: its own properties in creation order. -/
abbrev JSObject := List (String × JSVal)

/-- Property read `o[k]`: the own property, else the member inherited from
`Object.prototype`, else `undefined`. -/
def getProp (o : JSObject) (k : String) : JSVal :=
  match o.lookup k with
  | some v => v
  | none => if k ∈ objectPrototypeNames then JSVal.builtin k else JSVal.undefined

/-- Create or update an own property; an existing property keeps its position. -/
def setOwn {α : Type} : List (String × α) → String → α → List (String × α)
  | [], k, v => [(k, v)]
  | (k', v') :: rest, k, v =>
    if k' = k then (k, v) :: rest else (k', v') :: setOwn rest k v

/-- Assignment `o[k] = v` of a number or string `v`. The key `__proto__` reaches the
inherited setter, which ignores a value that is neither an object nor `null`; every other
key creates or updates an own property. -/
def setProp (o : JSObject) (k : String) (v : JSVal) : JSObject :=
  if k = "__proto__" then o else setOwn o k v

/-- Truthiness. -/
def JSVal.truthy : JSVal → Bool
  | JSVal.undefined => false
  | JSVal.num n => decide (n ≠ 0)
  | JSVal.nan => false
  | JSVal.builtin _ => true
  | JSVal.text _ _ => true

/-- The expression `v || 0`. -/
def JSVal.orZero (v : JSVal) : JSVal :=
  if v.truthy then v else JSVal.num 0

/-- The expression `v + 1`: addition for a number, concatenation for a string or an
object (whose primitive value is its string). -/
def JSVal.plusOne : JSVal → JSVal
  | JSVal.undefined => JSVal.nan
  | JSVal.num n => JSVal.num (n + 1)
  | JSVal.nan => JSVal.nan
  | JSVal.builtin name => JSVal.text name 1
  | JSVal.text name k => JSVal.text name (k + 1)

/-- The operation `ToNumber`; `none` is `NaN`. A `text` value is never a numeral. -/
def JSVal.toNumber : JSVal → Option Nat
  | JSVal.num n => some n
  | _ => none

/-- The new value stored by `v++`. -/
def JSVal.increment (v : JSVal) : JSVal :=
  match v.toNumber with
  | some n => JSVal.num (n + 1)
  | none => JSVal.nan

/-- Subtraction `a - b` of two numbers; `none` is `NaN`. -/
def numSub : Option Nat → Option Nat → Option Int
  | some a, some b => some ((a : Int) - (b : Int))
  | _, _ => none

/-- Whether a comparator result lets the first argument stay before the second: a
result that is negative, zero or `NaN` (which `sort` reads as `+0`). -/
def cmpKeeps : Option Int → Bool
  | some d => decide (d ≤ 0)
  | none => true

/-- The method `Array.prototype.sort(cmp)`: a stable sort, here insertion sort. For a
comparator that is not a consistent ordering ECMAScript leaves the order to the
implementation. -/
def jsSort {α : Type} (cmp : α → α → Option Int) (l : List α) : List α :=
  l.insertionSort (fun a b => cmpKeeps (cmp a b) = true)

/-- The call `l.slice(0, stop)` for an integer `stop`; a negative `stop` counts from the
end of the array. -/
def slice0 {α : Type} (l : List α) (stop : Int) : List α :=
  if stop < 0 then l.take (l.length - stop.natAbs) else l.take stop.toNat

/-- The array index a property key denotes, if any: the key is the canonical decimal
numeral of an integer below `2^32 - 1`. -/
def arrayIndex (k : String) : Option Nat :=
  match parseInt k with
  | some n => if numberToString n = k ∧ n < 4294967295 then some n else none
  | none => none

/-- Order in which `Object.keys` and `Object.entries` visit own property keys, given the
keys in creation order: array indices first, in ascending numeric order, then all other
keys in creation order. -/
def ownKeyOrder (ks : List String) : List String :=
  (ks.filter (fun k => (arrayIndex k).isSome)).insertionSort
      (fun a b => (arrayIndex a).getD 0 ≤ (arrayIndex b).getD 0)
    ++ ks.filter (fun k => (arrayIndex k).isNone)

/-- The function `Object.keys`. -/
def objectKeys {α : Type} (o : List (String × α)) : List String :=
  ownKeyOrder (o.map Prod.fst)

/-- The function `Object.entries`. -/
def objectEntries (o : JSObject) : List (String × JSVal) :=
  (objectKeys o).map (fun k => (k, (o.lookup k).getD JSVal.undefined))

/-! ## `data-processor.js` -/

/-- The statement `counts[k] = (counts[k] || 0) + 1`. -/
def tally (counts : JSObject) (k : String) : JSObject :=
  setProp counts k (getProp counts k).orZero.plusOne

/-- The body of the loop of `prepareTimelineData` (lines 13-17): an item is counted when
`item.year` is truthy, that is present and not 0. -/
def countYear (yearCounts : JSObject) (item : Item) : JSObject :=
  match item.year with
  | some y => if y = 0 then yearCounts else tally yearCounts (numberToString y)
  | none => yearCounts

/-- The object `yearCounts` of `prepareTimelineData` after the loop. -/
def yearCounts (items : List Item) : JSObject :=
  items.foldl countYear []

/-- The function `prepareTimelineData`: pairs `[year, count]`. -/
def prepareTimelineData (items : List Item) : List (Option Nat × JSVal) :=
  jsSort (fun a b => numSub a.1 b.1)
    ((objectEntries (yearCounts items)).map (fun e => (parseInt e.1, e.2)))

/-- The tag counting loop shared by `prepareStreamGraphData` (lines 35-40, object
`allTagCounts`) and `getTopTagsForYear` (lines 96-104, object `tagCounts`). -/
def countTags (items : List Item) : JSObject :=
  items.foldl (fun tc item => item.tags.foldl tally tc) []

/-- The comparator `(a, b) => b[1] - a[1]`. -/
def byCountDesc (a b : String × JSVal) : Option Int :=
  numSub b.2.toNumber a.2.toNumber

/-- The array `topTags` of `prepareStreamGraphData` (lines 43-46). -/
def topTags (items : List Item) (topN : Int) : List String :=
  (slice0 (jsSort byCountDesc (objectEntries (countTags items))) topN).map Prod.fst

/-- Apply `f` to the own property `k` of an object of objects, as an in-place update of
the inner object does. -/
def modifyOwn {α : Type} (o : List (String × α)) (k : String) (f : α → α) :
    List (String × α) :=
  o.map (fun p => if p.1 = k then (p.1, f p.2) else p)

/-- The object built by lines 55-58 for a year seen for the first time: a zero for each
of the top tags. -/
def zeroRow (topTags : List String) : JSObject :=
  topTags.foldl (fun o tag => setProp o tag (JSVal.num 0)) []

/-- The statement `o[tag]++` on the object `o = tagsByYear[item.year]` (line 63). -/
def incrementTag (o : JSObject) (tag : String) : JSObject :=
  setProp o tag (getProp o tag).increment

/-- One round of the loop of lines 51-66 on the object `tagsByYear`. Its keys are
decimal numerals, none of which is inherited from `Object.prototype`, so the test
`!tagsByYear[item.year]` is a test for an own property. -/
def tagsByYearStep (topTags : List String) (tagsByYear : List (String × JSObject))
    (item : Item) : List (String × JSObject) :=
  match item.year with
  | none => tagsByYear
  | some y =>
    if y = 0 then tagsByYear
    else
      let key := numberToString y
      let started :=
        if (tagsByYear.lookup key).isNone then setOwn tagsByYear key (zeroRow topTags)
        else tagsByYear
      item.tags.foldl (fun tby tag =>
        if tag ∈ topTags then modifyOwn tby key (fun o => incrementTag o tag) else tby) started

/-- The object `tagsByYear` after the loop of lines 51-66. -/
def tagsByYear (topTags : List String) (items : List Item) : List (String × JSObject) :=
  items.foldl (tagsByYearStep topTags) []

/-- Result of `prepareStreamGraphData`; a row `[label, v1, v2, ...]` is the pair of its
label and its values. -/
structure StreamGraphData where
  headers : List String
  data : List (String × List JSVal)
deriving DecidableEq

/-- The function `prepareStreamGraphData`. A row reads `tagsByYear[year]` for a `year`
taken from the keys of `tagsByYear`, so the inner object is always there. -/
def prepareStreamGraphData (items : List Item) (topN : Int) : StreamGraphData :=
  let tt := topTags items topN
  let tby := tagsByYear tt items
  let years := jsSort numSub ((objectKeys tby).map parseInt)
  let chartData := years.map (fun year =>
    (jsNumberToString year,
      tt.map (fun tag => (getProp ((tby.lookup (jsNumberToString year)).getD []) tag).orZero)))
  { headers := "Year" :: tt, data := chartData }

/-- The function `getTopTagsForYear`. -/
def getTopTagsForYear (items : List Item) (year : Nat) (topN : Int) :
    List (String × JSVal) :=
  let tagCounts := countTags (items.filter (fun item => decide (item.year = some year)))
  slice0 (jsSort byCountDesc ((objectEntries tagCounts).map (fun e => (e.1, e.2)))) topN

/-! ## Reference definitions used to state the properties -/

/-- Maximal runs of consecutive decimal digits of a character sequence, left to right;
`cur` is the run being read. -/
def digitRunsFrom (cur : List Char) : List Char → List (List Char)
  | [] => if cur = [] then [] else [cur]
  | c :: cs =>
    if c.isDigit then digitRunsFrom (cur ++ [c]) cs
    else (if cur = [] then [] else [cur]) ++ digitRunsFrom [] cs

/-- Maximal runs of consecutive decimal digits of a string. -/
def digitRuns (s : String) : List (List Char) := digitRunsFrom [] s.data

/-- Year read as the value of the first maximal digit run of exactly four digits. -/
def yearOfFirstRunOfExactlyFour (date : Option String) : Option Nat :=
  match date with
  | none => none
  | some d => ((digitRuns d).find? (fun r => decide (r.length = 4))).map decimalValue

/-- Year read as the value of the first four digits of the first maximal digit run of
at least four digits. -/
def yearOfFirstRunOfAtLeastFour (date : Option String) : Option Nat :=
  match date with
  | none => none
  | some d =>
    ((digitRuns d).find? (fun r => decide (4 ≤ r.length))).map (fun r => decimalValue (r.take 4))

/-- Whether a date string is present and contains four consecutive decimal digits. -/
def containsFourDigits (date : Option String) : Bool :=
  match date with
  | none => false
  | some d => d.data.tails.any (fun t => decide ((t.take 4).length = 4) && (t.take 4).all Char.isDigit)

/-- The joined first and last name of a creator, trimmed; absent when it is empty. -/
def joinedName (creator : RawCreator) : Option String :=
  let joined := trim (creator.firstName.getD "" ++ " " ++ creator.lastName.getD "")
  if joined = "" then none else some joined

/-- The display name of a creator: the combined name when it is a non-empty string,
else the joined name. -/
def displayName (creator : RawCreator) : Option String :=
  match creator.name with
  | some n => if n = "" then joinedName creator else some n
  | none => joinedName creator

/-- A raw record with the given date string and no other content. -/
def rawWithDate (date : Option String) : RawItem :=
  { data := { key := "K", title := none, date := date, tags := none, creators := none,
              itemType := "book", publicationTitle := none } }

/-- The elements of a list in order of first occurrence. -/
def firstOccurrences {α : Type} [DecidableEq α] : List α → List α
  | [] => []
  | t :: ts => t :: (firstOccurrences ts).filter (fun x => decide (x ≠ t))

/-- The value a counting object holds under key `k` after `c` rounds of
`counts[k] = (counts[k] || 0) + 1`: the number `c`, unless `k` names a member inherited
from `Object.prototype`, which the first round turns into a string. -/
def tallyValue (k : String) (c : Nat) : JSVal :=
  if k ∈ objectPrototypeNames then JSVal.text k c else JSVal.num c

/-- Closed form of the counting object obtained from the key sequence `keys`. -/
def tallied (keys : List String) : JSObject :=
  (firstOccurrences (keys.filter (fun k => decide (k ≠ "__proto__")))).map
    (fun k => (k, tallyValue k (keys.count k)))

/-- Every year of the item list is a safe integer, below `2^53`: an integer that is a
JavaScript number, that `String` prints as its decimal numeral and `parseInt` reads
back. The years `processItems` produces are at most 9999. -/
def YearsInRange (items : List Item) : Prop :=
  ∀ item ∈ items, item.year.getD 0 < 9007199254740992

/-- The year under which the loop of `prepareTimelineData` counts an item, if it does. -/
def countedYear (item : Item) : Option Nat :=
  match item.year with
  | some y => if y = 0 then none else some y
  | none => none

/-- The years that pass the test `if (item.year)`, item by item: present and not 0. -/
def countedYears (items : List Item) : List Nat :=
  items.filterMap countedYear

/-- The tag labels of a list of items, item by item, each in its own order. -/
def tagSequence (items : List Item) : List String :=
  items.flatMap (fun item => item.tags)

/-- The items whose year is `year`. -/
def itemsOfYear (items : List Item) (year : Nat) : List Item :=
  items.filter (fun item => decide (item.year = some year))

/-- Order of two tags `a`, `b` that the ranking of the tag sequence `tags` puts in this
order: `a` does not occur less often than `b`, and when they occur equally often, either
both are array indices and `a` is the smaller one, or `a` is an array index and `b` is
not, or neither is and `a` occurs first in `tags`. -/
def RankedBefore (tags : List String) (a b : String) : Prop :=
  tags.count b ≤ tags.count a ∧
  (tags.count a = tags.count b →
    match arrayIndex a, arrayIndex b with
    | some i, some j => i < j
    | some _, none => True
    | none, some _ => False
    | none, none => List.Sublist [a, b] (firstOccurrences tags))

/-- Closed form of the object `tagsByYear[year]`: starting from zeros, one increment for
each occurrence of a top tag in the tag sequence of that year. -/
def yearRow (topTags : List String) (tags : List String) : JSObject :=
  (tags.filter (fun tag => decide (tag ∈ topTags))).foldl incrementTag (zeroRow topTags)

/-- The years of the rows of both charts: the counted years, each once, ascending. -/
def chartYears (items : List Item) : List Nat :=
  (firstOccurrences (countedYears items)).insertionSort (· ≤ ·)

/-- An item with the given year and tags and no other content. -/
def itemOf (year : Option Nat) (tags : List String) : Item :=
  { key := "K", title := "Untitled", year := year, tags := tags, creators := [],
    itemType := "book", publicationTitle := "", date := "" }

/-- The three items of scenarios A and B of the specification. -/
def scenarioItems : List Item :=
  [itemOf (some 2020) ["ai", "nlp"], itemOf (some 2020) ["ai"], itemOf (some 2021) ["nlp"]]

/-- The number a pair of the timeline holds as its count (0 when it is not a number). -/
def countOf (p : Option Nat × JSVal) : Nat := p.2.toNumber.getD 0

/-! ## Year extraction -/

theorem digit_toNat_bounds {c : Char} (h : c.isDigit = true) : 48 ≤ c.toNat ∧ c.toNat ≤ 57 := by
  simp only [Char.isDigit, Bool.and_eq_true, decide_eq_true_eq] at h
  exact ⟨h.1, h.2⟩

theorem takeWhile_all_digits {ds : List Char} (h : ds.all Char.isDigit = true) :
    ds.takeWhile Char.isDigit = ds := by
  rw [List.takeWhile_eq_self_iff]
  simpa using h

theorem parseInt_digits {ds : List Char} (h : ds.all Char.isDigit = true) (hne : ds ≠ []) :
    parseInt (String.mk ds) = some (decimalValue ds) := by
  simp [parseInt, takeWhile_all_digits h, hne]

theorem decimalValue_four_le {m : List Char} (hlen : m.length = 4)
    (h : m.all Char.isDigit = true) : decimalValue m ≤ 9999 := by
  match m, hlen with
  | [a, b, c, d], _ =>
    simp only [List.all_cons, List.all_nil, Bool.and_true, Bool.and_eq_true] at h
    have ha := digit_toNat_bounds h.1
    have hb := digit_toNat_bounds h.2.1
    have hc := digit_toNat_bounds h.2.2.1
    have hd := digit_toNat_bounds h.2.2.2
    simp only [decimalValue, List.foldl_cons, List.foldl_nil]
    omega

theorem matchFourDigits_some {s m : List Char} (h : matchFourDigits s = some m) :
    m.length = 4 ∧ m.all Char.isDigit = true := by
  induction s with
  | nil => simp [matchFourDigits] at h
  | cons c cs ih =>
    unfold matchFourDigits at h
    split at h
    · rename_i hc
      cases h
      exact hc
    · exact ih h


theorem matchFourDigits_digits_append (d : List Char) (hd : d.all Char.isDigit = true)
    (rest : List Char) (hrest : ∀ c, rest.head? = some c → c.isDigit = false) :
    matchFourDigits (d ++ rest) =
      if 4 ≤ d.length then some (d.take 4) else matchFourDigits rest := by
  induction d with
  | nil => simp
  | cons x xs ih =>
    simp only [List.all_cons, Bool.and_eq_true] at hd
    rw [List.cons_append, matchFourDigits]
    by_cases h4 : 4 ≤ (x :: xs).length
    · have htake : ((x :: (xs ++ rest)).take 4) = (x :: xs).take 4 := by
        rw [← List.cons_append, List.take_append_of_le_length h4]
      have hall : ((x :: xs).take 4).all Char.isDigit = true := by
        rw [List.all_eq_true]
        intro c hc
        have := List.mem_of_mem_take hc
        rcases List.mem_cons.1 this with rfl | h'
        · exact hd.1
        · exact (List.all_eq_true.1 hd.2) c h'
      have hlen : ((x :: xs).take 4).length = 4 := by
        rw [List.length_take]; omega
      rw [htake, if_pos ⟨hlen, hall⟩, if_pos h4]
    · rw [if_neg h4]
      have hnot : ¬ (((x :: (xs ++ rest)).take 4).length = 4 ∧
          ((x :: (xs ++ rest)).take 4).all Char.isDigit = true) := by
        rintro ⟨hl, ha⟩
        simp only [List.length_cons] at h4
        cases rest with
        | nil =>
          simp only [List.append_nil, List.length_take, List.length_cons] at hl
          omega
        | cons r rs =>
          have hr : r.isDigit = false := hrest r rfl
          have hmem : r ∈ (x :: (xs ++ r :: rs)).take 4 := by
            rw [← List.cons_append]
            rw [List.take_append_eq_append_take]
            apply List.mem_append_right
            have : 4 - (x :: xs).length = (4 - (x :: xs).length - 1) + 1 := by
              simp only [List.length_cons]; omega
            rw [this, List.take_succ_cons]
            exact List.mem_cons_self _ _
          have := (List.all_eq_true.1 ha) r hmem
          rw [hr] at this
          exact Bool.false_ne_true this
      rw [if_neg hnot, ih hd.2]
      have : ¬ 4 ≤ xs.length := by simp only [List.length_cons] at h4; omega
      rw [if_neg this]

theorem matchFourDigits_eq_runs (cur s : List Char) (hcur : cur.all Char.isDigit = true) :
    matchFourDigits (cur ++ s) =
      ((digitRunsFrom cur s).find? (fun r => decide (4 ≤ r.length))).map (fun r => r.take 4) := by
  induction s generalizing cur with
  | nil =>
    have := matchFourDigits_digits_append cur hcur [] (by simp)
    rw [this]
    by_cases h : cur = []
    · subst h; simp [digitRunsFrom, matchFourDigits]
    · by_cases h4 : 4 ≤ cur.length <;> simp [digitRunsFrom, h, h4, matchFourDigits]
  | cons c cs ih =>
    by_cases hc : c.isDigit = true
    · have hcur2 : (cur ++ [c]).all Char.isDigit = true := by
        simp [List.all_append, hcur, hc]
      have := ih (cur ++ [c]) hcur2
      simp only [List.append_assoc, List.singleton_append] at this
      rw [this]
      simp [digitRunsFrom, hc]
    · have hc2 : c.isDigit = false := by simpa using hc
      rw [matchFourDigits_digits_append cur hcur (c :: cs) (by simp [hc2])]
      have hrest : matchFourDigits (c :: cs) = matchFourDigits cs := by
        rw [matchFourDigits, if_neg]
        rintro ⟨_, ha⟩
        have hm : c ∈ (c :: cs).take 4 := by
          rw [List.take_succ_cons]; exact List.mem_cons_self _ _
        have := (List.all_eq_true.1 ha) c hm
        rw [hc2] at this
        exact Bool.false_ne_true this
      have ih0 := ih [] (by simp)
      simp only [List.nil_append] at ih0
      rw [hrest, ih0]
      by_cases h : cur = []
      · subst h; simp [digitRunsFrom, hc2]
      · by_cases h4 : 4 ≤ cur.length <;> simp [digitRunsFrom, hc2, h, h4]

theorem extractYear_eq_spec (date : Option String) :
    extractYear date = yearOfFirstRunOfAtLeastFour date := by
  cases date with
  | none => rfl
  | some d =>
    have hruns := matchFourDigits_eq_runs [] d.data (by simp)
    simp only [List.nil_append] at hruns
    simp only [extractYear, yearOfFirstRunOfAtLeastFour, digitRuns]
    by_cases hd : d = ""
    · subst hd; simp [digitRunsFrom]
    · rw [if_neg hd]
      cases hm : matchFourDigits d.data with
      | none =>
        rw [hm] at hruns
        simp only
        cases hf : (digitRunsFrom [] d.data).find? (fun r => decide (4 ≤ r.length)) with
        | none => rfl
        | some r => rw [hf] at hruns; simp at hruns
      | some m =>
        rw [hm] at hruns
        simp only
        obtain ⟨hlen, hall⟩ := matchFourDigits_some hm
        rw [parseInt_digits hall (by intro h; rw [h] at hlen; simp at hlen)]
        cases hf : (digitRunsFrom [] d.data).find? (fun r => decide (4 ≤ r.length)) with
        | none => rw [hf] at hruns; simp at hruns
        | some r =>
          rw [hf] at hruns
          simp only [Option.map_some', Option.some.injEq] at hruns
          simp [hruns]


/-! ## The year filter of `processItems` -/

theorem matchFourDigits_isSome (s : List Char) :
    (matchFourDigits s).isSome =
      s.tails.any (fun t => decide ((t.take 4).length = 4) && (t.take 4).all Char.isDigit) := by
  induction s with
  | nil => simp [matchFourDigits]
  | cons c cs ih =>
    rw [matchFourDigits, List.tails_cons, List.any_cons, ← ih]
    by_cases h : ((c :: cs).take 4).length = 4 ∧ ((c :: cs).take 4).all Char.isDigit = true
    · rw [if_pos h]
      simp only [Option.isSome_some]
      rw [h.1, h.2]; simp
    · rw [if_neg h]
      have : (decide (((c :: cs).take 4).length = 4) && ((c :: cs).take 4).all Char.isDigit) = false := by
        rw [Bool.and_eq_false_iff]
        by_cases h1 : ((c :: cs).take 4).length = 4
        · right
          have h2 : ¬ ((c :: cs).take 4).all Char.isDigit = true := fun h2 => h ⟨h1, h2⟩
          simpa using h2
        · left; simpa using h1
      rw [this, Bool.false_or]

theorem extractYear_isSome (date : Option String) :
    (extractYear date).isSome = containsFourDigits date := by
  cases date with
  | none => rfl
  | some d =>
    simp only [extractYear, containsFourDigits]
    rw [← matchFourDigits_isSome]
    by_cases hd : d = ""
    · subst hd; simp [matchFourDigits]
    · rw [if_neg hd]
      cases hm : matchFourDigits d.data with
      | none => rfl
      | some m =>
        obtain ⟨hlen, hall⟩ := matchFourDigits_some hm
        simp only
        rw [parseInt_digits hall (by intro h; rw [h] at hlen; simp at hlen)]
        rfl

theorem extractYear_le {date : Option String} {y : Nat} (h : extractYear date = some y) :
    y ≤ 9999 := by
  cases date with
  | none => simp [extractYear] at h
  | some d =>
    simp only [extractYear] at h
    by_cases hd : d = ""
    · rw [if_pos hd] at h; simp at h
    · rw [if_neg hd] at h
      cases hm : matchFourDigits d.data with
      | none => rw [hm] at h; simp at h
      | some m =>
        rw [hm] at h
        obtain ⟨hlen, hall⟩ := matchFourDigits_some hm
        simp only at h
        rw [parseInt_digits hall (by intro h; rw [h] at hlen; simp at hlen)] at h
        cases h
        exact decimalValue_four_le hlen hall

theorem processItems_eq_filter_map (raw : List RawItem) :
    processItems raw =
      (raw.filter (fun r => containsFourDigits r.data.date)).map processItem := by
  unfold processItems
  rw [List.filter_map]
  congr 1
  apply List.filter_congr
  intro r _
  simp only [Function.comp, processItem, ← extractYear_isSome]
  rw [Bool.eq_iff_iff]
  simp only [decide_eq_true_eq, ne_eq, Option.isSome_iff_ne_none]

/-! ## Creators -/

theorem strOr_empty (s : Option String) : strOr s "" = s.getD "" := by
  cases s with
  | none => rfl
  | some v =>
    simp only [strOr, Option.getD_some]
    split
    · rename_i h; exact h.symm
    · rfl

theorem trim_head_not_whiteSpace (s : String) (c : Char)
    (h : (trim s).data.head? = some c) : isWhiteSpace c = false := by
  simp only [trim] at h
  have hpre : ((s.data.dropWhile isWhiteSpace).reverse.dropWhile isWhiteSpace).reverse
      <+: s.data.dropWhile isWhiteSpace := List.rdropWhile_prefix isWhiteSpace _
  obtain ⟨r, hr⟩ := hpre
  have hhead := List.head?_dropWhile_not isWhiteSpace s.data
  rw [← hr] at hhead
  cases ht : ((s.data.dropWhile isWhiteSpace).reverse.dropWhile isWhiteSpace).reverse with
  | nil => rw [ht] at h; simp at h
  | cons x xs =>
    rw [ht] at h hhead
    simp only [List.head?_cons, Option.some.injEq] at h
    subst h
    simpa using hhead

theorem trim_getLast_not_whiteSpace (s : String) (c : Char)
    (h : (trim s).data.getLast? = some c) : isWhiteSpace c = false := by
  simp only [trim] at h
  rw [List.getLast?_reverse] at h
  have hhead := List.head?_dropWhile_not isWhiteSpace (s.data.dropWhile isWhiteSpace).reverse
  rw [h] at hhead
  simpa using hhead

theorem extractCreators_eq_filterMap (cs : List RawCreator) :
    extractCreators (some cs) = cs.filterMap displayName := by
  simp only [extractCreators]
  induction cs with
  | nil => rfl
  | cons c cs ih =>
    rw [List.map_cons, List.filterMap_cons, List.filter_cons, ih]
    have hname : creatorName c = (displayName c).getD "" ∧
        (displayName c = none ↔ creatorName c = "") := by
      simp only [creatorName, displayName, joinedName, strOr_empty]
      cases hn : c.name with
      | none =>
        simp only [Option.getD_none, ne_eq, not_true_eq_false, if_false]
        split <;> simp_all
      | some n =>
        simp only [Option.getD_some, ne_eq]
        by_cases h : n = ""
        · simp only [h, not_true_eq_false, if_false, if_true]
          split <;> simp_all
        · simp [h]
    cases hd : displayName c with
    | none =>
      have := hname.2.1 hd
      simp [this]
    | some n =>
      have h1 : creatorName c = n := by rw [hname.1, hd]; rfl
      have h2 : creatorName c ≠ "" := fun h => by
        have := hname.2.2 h; rw [hd] at this; cases this
      simp [h1 ▸ h2, h1]


/-! ## Decimal numerals -/

theorem digitChar_isDigit {d : Nat} (h : d < 10) : (Nat.digitChar d).isDigit = true := by
  interval_cases d <;> decide

theorem digitChar_value {d : Nat} (h : d < 10) : (Nat.digitChar d).toNat - 48 = d := by
  interval_cases d <;> decide

theorem decimalValue_append (l : List Char) (c : Char) :
    decimalValue (l ++ [c]) = decimalValue l * 10 + (c.toNat - 48) := by
  simp [decimalValue, List.foldl_append]

theorem decimalDigits_spec (fuel n : Nat) (h : n < fuel) :
    (decimalDigits fuel n).all Char.isDigit = true ∧ decimalDigits fuel n ≠ [] ∧
      decimalValue (decimalDigits fuel n) = n := by
  induction fuel generalizing n with
  | zero => omega
  | succ fuel ih =>
    unfold decimalDigits
    by_cases h10 : n < 10
    · rw [if_pos h10]
      refine ⟨by simp [digitChar_isDigit h10], by simp, ?_⟩
      simp [decimalValue, digitChar_value h10]
    · rw [if_neg h10]
      have hlt : n / 10 < fuel := by omega
      obtain ⟨h1, _, h3⟩ := ih (n / 10) hlt
      have hmod : n % 10 < 10 := Nat.mod_lt _ (by norm_num)
      refine ⟨?_, by simp, ?_⟩
      · rw [List.all_append, h1]; simp [digitChar_isDigit hmod]
      · rw [decimalValue_append, h3, digitChar_value hmod]; omega

theorem numberToString_digits (n : Nat) :
    (numberToString n).data.all Char.isDigit = true ∧ (numberToString n).data ≠ [] ∧
      decimalValue (numberToString n).data = n :=
  decimalDigits_spec (n + 1) n (Nat.lt_succ_self n)

theorem parseInt_numberToString (n : Nat) : parseInt (numberToString n) = some n := by
  obtain ⟨h1, h2, h3⟩ := numberToString_digits n
  simp [parseInt, takeWhile_all_digits h1, h2, h3]

theorem numberToString_injective : Function.Injective numberToString := by
  intro a b h
  have ha := parseInt_numberToString a
  rw [h, parseInt_numberToString b] at ha
  exact (Option.some.inj ha).symm

theorem arrayIndex_numberToString (n : Nat) :
    arrayIndex (numberToString n) = if n < 4294967295 then some n else none := by
  simp [arrayIndex, parseInt_numberToString]

theorem numberToString_not_inherited (n : Nat) : numberToString n ∉ objectPrototypeNames := by
  intro h
  have hall : ∀ s ∈ objectPrototypeNames, s.data.all Char.isDigit = false := by decide
  have := hall _ h
  rw [(numberToString_digits n).1] at this
  exact Bool.noConfusion this

theorem numberToString_ne_proto (n : Nat) : numberToString n ≠ "__proto__" := by
  intro h
  exact numberToString_not_inherited n (by rw [h]; decide)

/-! ## First occurrences -/

section FirstOccurrences
variable {α : Type} [DecidableEq α]

theorem mem_firstOccurrences {l : List α} {a : α} : a ∈ firstOccurrences l ↔ a ∈ l := by
  induction l with
  | nil => simp [firstOccurrences]
  | cons x xs ih =>
    simp only [firstOccurrences, List.mem_cons, List.mem_filter, ih, decide_eq_true_eq]
    by_cases h : a = x <;> simp [h]

theorem nodup_firstOccurrences (l : List α) : (firstOccurrences l).Nodup := by
  induction l with
  | nil => simp [firstOccurrences]
  | cons x xs ih =>
    simp only [firstOccurrences, List.nodup_cons, List.mem_filter, decide_eq_true_eq]
    exact ⟨fun h => h.2 rfl, ih.filter _⟩

theorem firstOccurrences_append_singleton (l : List α) (t : α) :
    firstOccurrences (l ++ [t]) =
      if t ∈ l then firstOccurrences l else firstOccurrences l ++ [t] := by
  induction l with
  | nil => simp [firstOccurrences]
  | cons x xs ih =>
    rw [List.cons_append, firstOccurrences, ih, firstOccurrences]
    by_cases hx : t = x
    · subst hx
      by_cases hm : t ∈ xs
      · simp [hm]
      · simp [hm, List.filter_append]
    · by_cases hm : t ∈ xs
      · simp [hm, hx]
      · simp [hm, hx, List.filter_append]

theorem firstOccurrences_map {β : Type} [DecidableEq β] (f : α → β)
    (hf : Function.Injective f) (l : List α) :
    firstOccurrences (l.map f) = (firstOccurrences l).map f := by
  induction l with
  | nil => rfl
  | cons x xs ih =>
    simp only [List.map_cons, firstOccurrences, ih, List.filter_map]
    congr 2
    apply List.filter_congr
    intro y _
    simp [Function.comp, hf.eq_iff]

end FirstOccurrences


/-! ## Objects as association lists -/

theorem lookup_map_self {α : Type} (f : String → α) (l : List String) (k : String) :
    (l.map (fun x => (x, f x))).lookup k = if k ∈ l then some (f k) else none := by
  induction l with
  | nil => simp
  | cons x xs ih =>
    rw [List.map_cons, List.lookup_cons, ih]
    by_cases h : k = x
    · subst h; simp
    · have : (k == x) = false := by simpa using h
      simp [this, h]

theorem setOwn_map_of_not_mem {α : Type} (f : String → α) (l : List String) (k : String)
    (v : α) (h : k ∉ l) :
    setOwn (l.map (fun x => (x, f x))) k v = l.map (fun x => (x, f x)) ++ [(k, v)] := by
  induction l with
  | nil => rfl
  | cons x xs ih =>
    simp only [List.mem_cons, not_or] at h
    rw [List.map_cons, setOwn, if_neg (fun e => h.1 e.symm), ih h.2]
    rfl

theorem setOwn_map_of_mem {α : Type} (f : String → α) (l : List String) (k : String)
    (v : α) (h : k ∈ l) (hnd : l.Nodup) :
    setOwn (l.map (fun x => (x, f x))) k v =
      l.map (fun x => (x, if x = k then v else f x)) := by
  induction l with
  | nil => simp at h
  | cons x xs ih =>
    rw [List.nodup_cons] at hnd
    rw [List.map_cons, List.map_cons, setOwn]
    by_cases hx : x = k
    · subst hx
      rw [if_pos rfl, if_pos rfl]
      congr 1
      apply List.map_congr_left
      intro y hy
      have : y ≠ x := fun e => hnd.1 (e ▸ hy)
      simp [this]
    · rw [if_neg hx, if_neg hx]
      have hk : k ∈ xs := by
        rcases List.mem_cons.1 h with e | e
        · exact absurd e.symm hx
        · exact e
      rw [ih hk hnd.2]

theorem tallyValue_step (k : String) (c : Nat) (hc : 0 < c) :
    (tallyValue k c).orZero.plusOne = tallyValue k (c + 1) := by
  unfold tallyValue
  by_cases h : k ∈ objectPrototypeNames
  · simp [h, JSVal.orZero, JSVal.truthy, JSVal.plusOne]
  · have : c ≠ 0 := by omega
    simp [h, JSVal.orZero, JSVal.truthy, JSVal.plusOne, this]

theorem tally_tallied (l : List String) (t : String) :
    tally (tallied l) t = tallied (l ++ [t]) := by
  unfold tally setProp
  by_cases hp : t = "__proto__"
  · rw [if_pos hp]
    unfold tallied
    have hf : (l ++ [t]).filter (fun k => decide (k ≠ "__proto__")) =
        l.filter (fun k => decide (k ≠ "__proto__")) := by
      simp [List.filter_append, hp]
    rw [hf]
    apply List.map_congr_left
    intro k hk
    rw [mem_firstOccurrences, List.mem_filter] at hk
    have hne : k ≠ t := by
      have := hk.2
      simp only [decide_eq_true_eq] at this
      rw [hp]; exact this
    simp [List.count_append, List.count_singleton, hne]
  · rw [if_neg hp]
    unfold tallied
    have hf : (l ++ [t]).filter (fun k => decide (k ≠ "__proto__")) =
        l.filter (fun k => decide (k ≠ "__proto__")) ++ [t] := by
      simp [List.filter_append, hp]
    rw [hf, firstOccurrences_append_singleton]
    have hmem : t ∈ l.filter (fun k => decide (k ≠ "__proto__")) ↔ t ∈ l := by
      simp [List.mem_filter, hp]
    have hmemF : t ∈ firstOccurrences (l.filter (fun k => decide (k ≠ "__proto__"))) ↔ t ∈ l := by
      rw [mem_firstOccurrences, hmem]
    by_cases hin : t ∈ l
    · rw [if_pos (hmem.2 hin)]
      have hget : getProp ((firstOccurrences (l.filter (fun k => decide (k ≠ "__proto__")))).map
          (fun k => (k, tallyValue k (l.count k)))) t = tallyValue t (l.count t) := by
        unfold getProp
        rw [lookup_map_self, if_pos (hmemF.2 hin)]
      rw [hget, tallyValue_step t _ (List.count_pos_iff.2 hin),
        setOwn_map_of_mem _ _ _ _ (hmemF.2 hin) (nodup_firstOccurrences _)]
      apply List.map_congr_left
      intro k _
      by_cases hk : k = t
      · subst hk; simp [List.count_append]
      · simp [List.count_append, List.count_singleton, hk]
    · rw [if_neg (fun h => hin (hmem.1 h))]
      have hnF : t ∉ firstOccurrences (l.filter (fun k => decide (k ≠ "__proto__"))) :=
        fun h => hin (hmemF.1 h)
      have hget : (getProp ((firstOccurrences (l.filter (fun k => decide (k ≠ "__proto__")))).map
          (fun k => (k, tallyValue k (l.count k)))) t).orZero.plusOne = tallyValue t 1 := by
        unfold getProp
        rw [lookup_map_self, if_neg hnF]
        unfold tallyValue
        by_cases h : t ∈ objectPrototypeNames
        · simp [h, JSVal.orZero, JSVal.truthy, JSVal.plusOne]
        · simp [h, JSVal.orZero, JSVal.truthy, JSVal.plusOne]
      rw [hget, setOwn_map_of_not_mem _ _ _ _ hnF, List.map_append]
      congr 1
      · apply List.map_congr_left
        intro k hk
        have hne : k ≠ t := fun e => hnF (e ▸ hk)
        simp [List.count_append, List.count_singleton, hne]
      · simp [List.count_append, List.count_eq_zero_of_not_mem hin]

theorem foldl_tally_eq_tallied (keys : List String) : keys.foldl tally [] = tallied keys := by
  induction keys using List.reverseRecOn with
  | nil => rfl
  | append_singleton l t ih =>
    rw [List.foldl_append, List.foldl_cons, List.foldl_nil, ih, tally_tallied]

theorem foldl_foldl_tally (items : List Item) (o : JSObject) :
    items.foldl (fun tc item => item.tags.foldl tally tc) o =
      (items.flatMap (fun item => item.tags)).foldl tally o := by
  induction items generalizing o with
  | nil => rfl
  | cons x xs ih =>
    rw [List.foldl_cons, ih, List.flatMap_cons, List.foldl_append]

theorem countTags_eq_tallied (items : List Item) :
    countTags items = tallied (items.flatMap (fun item => item.tags)) := by
  unfold countTags
  rw [foldl_foldl_tally, foldl_tally_eq_tallied]


/-! ## Key order and entries -/

theorem ownKeyOrder_perm (l : List String) : (ownKeyOrder l).Perm l := by
  unfold ownKeyOrder
  have h1 := List.perm_insertionSort (fun a b => (arrayIndex a).getD 0 ≤ (arrayIndex b).getD 0)
    (l.filter (fun k => (arrayIndex k).isSome))
  have h2 := List.filter_append_perm (fun k => (arrayIndex k).isSome) l
  have h3 : l.filter (fun k => (arrayIndex k).isNone) =
      l.filter (fun k => !(arrayIndex k).isSome) := by
    apply List.filter_congr
    intro k _
    cases arrayIndex k <;> rfl
  rw [h3]
  exact (h1.append_right _).trans h2

theorem mem_ownKeyOrder {l : List String} {k : String} : k ∈ ownKeyOrder l ↔ k ∈ l :=
  (ownKeyOrder_perm l).mem_iff

theorem nodup_ownKeyOrder {l : List String} (h : l.Nodup) : (ownKeyOrder l).Nodup :=
  (ownKeyOrder_perm l).nodup_iff.2 h

theorem objectKeys_map_self {α : Type} (f : String → α) (l : List String) :
    objectKeys (l.map (fun k => (k, f k))) = ownKeyOrder l := by
  unfold objectKeys
  rw [List.map_map]
  congr 1
  exact List.map_id _

theorem objectEntries_map_self (f : String → JSVal) (l : List String) :
    objectEntries (l.map (fun k => (k, f k))) = (ownKeyOrder l).map (fun k => (k, f k)) := by
  unfold objectEntries
  rw [objectKeys_map_self]
  apply List.map_congr_left
  intro k hk
  rw [lookup_map_self, if_pos (mem_ownKeyOrder.1 hk)]
  rfl

theorem ownKeyOrder_numerals (ns : List Nat) :
    ∃ σ : List Nat, σ.Perm ns ∧
      ownKeyOrder (ns.map numberToString) = σ.map numberToString := by
  refine ⟨(ns.filter (fun n => decide (n < 4294967295))).insertionSort (· ≤ ·) ++
    ns.filter (fun n => !decide (n < 4294967295)), ?_, ?_⟩
  · exact ((List.perm_insertionSort _ _).append_right _).trans (List.filter_append_perm _ _)
  · unfold ownKeyOrder
    rw [List.map_append, List.filter_map, List.filter_map]
    congr 1
    · have hf : List.filter ((fun k => (arrayIndex k).isSome) ∘ numberToString) ns =
          ns.filter (fun n => decide (n < 4294967295)) := by
        apply List.filter_congr
        intro n _
        simp only [Function.comp, arrayIndex_numberToString]
        split <;> simp_all
      rw [hf]
      symm
      apply List.map_insertionSort
      intro a ha b hb
      have ha2 : a < 4294967295 := by simpa using (List.mem_filter.1 ha).2
      have hb2 : b < 4294967295 := by simpa using (List.mem_filter.1 hb).2
      simp [arrayIndex_numberToString, ha2, hb2]
    · congr 1
      apply List.filter_congr
      intro n _
      simp only [Function.comp, arrayIndex_numberToString]
      split <;> simp_all

/-! ## Sorting -/

theorem jsSort_years (σ : List Nat) :
    jsSort numSub (σ.map some) = (σ.insertionSort (· ≤ ·)).map some := by
  unfold jsSort
  symm
  apply List.map_insertionSort
  intro a _ b _
  simp [numSub, cmpKeeps]

theorem jsSort_year_pairs (v : Nat → JSVal) (σ : List Nat) :
    jsSort (fun a b : Option Nat × JSVal => numSub a.1 b.1) (σ.map (fun y => (some y, v y))) =
      (σ.insertionSort (· ≤ ·)).map (fun y => (some y, v y)) := by
  unfold jsSort
  symm
  apply List.map_insertionSort
  intro a _ b _
  simp [numSub, cmpKeeps]

theorem jsSort_counts (c : String → Nat) (l : List String) :
    jsSort byCountDesc (l.map (fun k => (k, JSVal.num (c k)))) =
      (l.insertionSort (fun a b => c b ≤ c a)).map (fun k => (k, JSVal.num (c k))) := by
  unfold jsSort
  symm
  apply List.map_insertionSort
  intro a _ b _
  simp [byCountDesc, numSub, cmpKeeps, JSVal.toNumber]

theorem insertionSort_le_eq_of_perm {l₁ l₂ : List Nat} (h : l₁.Perm l₂) :
    l₁.insertionSort (· ≤ ·) = l₂.insertionSort (· ≤ ·) := by
  apply List.eq_of_perm_of_sorted (r := (· ≤ ·))
  · exact (List.perm_insertionSort _ _).trans (h.trans (List.perm_insertionSort _ _).symm)
  · exact List.sorted_insertionSort _ _
  · exact List.sorted_insertionSort _ _

theorem sorted_lt_insertionSort {l : List Nat} (h : l.Nodup) :
    (l.insertionSort (· ≤ ·)).Pairwise (· < ·) := by
  have hs : (l.insertionSort (· ≤ ·)).Sorted (· ≤ ·) := List.sorted_insertionSort _ _
  exact hs.lt_of_le ((List.perm_insertionSort _ _).nodup_iff.2 h)

/-! ## Stability -/

theorem pair_sublist_or {α : Type} {a b : α} {l : List α} (hab : a ≠ b)
    (ha : a ∈ l) (hb : b ∈ l) : List.Sublist [a, b] l ∨ List.Sublist [b, a] l := by
  induction l with
  | nil => simp at ha
  | cons x xs ih =>
    rcases List.mem_cons.1 ha with rfl | ha'
    · rcases List.mem_cons.1 hb with e | hb'
      · exact absurd e.symm hab
      · left
        exact List.Sublist.cons₂ _ (List.singleton_sublist.2 hb')
    · rcases List.mem_cons.1 hb with rfl | hb'
      · right
        exact List.Sublist.cons₂ _ (List.singleton_sublist.2 ha')
      · rcases ih ha' hb' with h | h
        · exact Or.inl (List.Sublist.cons _ h)
        · exact Or.inr (List.Sublist.cons _ h)

theorem pair_sublist_asymm {α : Type} {a b : α} {l : List α} (hnd : l.Nodup)
    (h1 : List.Sublist [a, b] l) : ¬ List.Sublist [b, a] l := by
  intro h2
  induction l with
  | nil => simp at h1
  | cons x xs ih =>
    rw [List.nodup_cons] at hnd
    cases h1 with
    | cons _ h1' =>
      cases h2 with
      | cons _ h2' =>
        exact ih hnd.2 h1' h2'
      | cons₂ _ h2' =>
        exact hnd.1 (h1'.subset (by simp))
    | cons₂ _ h1' =>
      cases h2 with
      | cons _ h2' =>
        exact hnd.1 (h2'.subset (by simp))
      | cons₂ _ h2' =>
        exact hnd.1 (h1'.subset (by simp))

theorem insertionSort_stable {α : Type} (r : α → α → Prop) [DecidableRel r]
    {l : List α} (hnd : l.Nodup) {a b : α}
    (hs : List.Sublist [a, b] (l.insertionSort r)) (hba : r b a) : List.Sublist [a, b] l := by
  have hnd' : (l.insertionSort r).Nodup := (List.perm_insertionSort r l).nodup_iff.2 hnd
  have hab : a ≠ b := List.pairwise_iff_forall_sublist.1 hnd' hs
  have ha : a ∈ l := (List.mem_insertionSort r).1 (hs.subset (by simp))
  have hb : b ∈ l := (List.mem_insertionSort r).1 (hs.subset (by simp))
  rcases pair_sublist_or hab ha hb with h | h
  · exact h
  · exact absurd (List.pair_sublist_insertionSort hba h) (pair_sublist_asymm hnd' hs)


/-! ## Timeline -/

theorem yearCounts_foldl (items : List Item) (o : JSObject) :
    items.foldl countYear o = ((countedYears items).map numberToString).foldl tally o := by
  induction items generalizing o with
  | nil => rfl
  | cons x xs ih =>
    rw [List.foldl_cons, ih]
    unfold countedYears
    rw [List.filterMap_cons]
    unfold countYear countedYear
    cases hy : x.year with
    | none => rfl
    | some y =>
      by_cases h0 : y = 0
      · simp [h0]
      · simp [h0]

theorem yearCounts_eq_tallied (items : List Item) :
    yearCounts items = tallied ((countedYears items).map numberToString) := by
  unfold yearCounts
  rw [yearCounts_foldl, foldl_tally_eq_tallied]

theorem tallied_numerals (ys : List Nat) :
    tallied (ys.map numberToString) =
      ((firstOccurrences ys).map numberToString).map
        (fun k => (k, tallyValue k ((ys.map numberToString).count k))) := by
  unfold tallied
  have hf : (ys.map numberToString).filter (fun k => decide (k ≠ "__proto__")) =
      ys.map numberToString := by
    rw [List.filter_eq_self]
    intro k hk
    obtain ⟨y, _, rfl⟩ := List.mem_map.1 hk
    simpa using numberToString_ne_proto y
  rw [hf, firstOccurrences_map _ numberToString_injective]

theorem tallyValue_numeral (y c : Nat) : tallyValue (numberToString y) c = JSVal.num c := by
  unfold tallyValue
  rw [if_neg (numberToString_not_inherited y)]

theorem countedYear_eq_some {item : Item} {y : Nat} :
    countedYear item = some y ↔ y ≠ 0 ∧ item.year = some y := by
  unfold countedYear
  cases hy : item.year with
  | none => simp
  | some z =>
    by_cases hz : z = 0
    · subst hz
      simp only [if_true, Option.some.injEq]
      constructor
      · intro h; cases h
      · rintro ⟨h0, h⟩; exact absurd h.symm h0
    · simp only [hz, if_false, Option.some.injEq]
      constructor
      · intro h; subst h; exact ⟨hz, rfl⟩
      · rintro ⟨_, h⟩; exact h

theorem mem_countedYears {items : List Item} {y : Nat} :
    y ∈ countedYears items ↔ y ≠ 0 ∧ ∃ item ∈ items, item.year = some y := by
  unfold countedYears
  rw [List.mem_filterMap]
  constructor
  · rintro ⟨item, hi, h⟩
    obtain ⟨h0, hy⟩ := countedYear_eq_some.1 h
    exact ⟨h0, item, hi, hy⟩
  · rintro ⟨h0, item, hi, hy⟩
    exact ⟨item, hi, countedYear_eq_some.2 ⟨h0, hy⟩⟩

theorem count_countedYears (items : List Item) (y : Nat) (hy : y ≠ 0) :
    (countedYears items).count y = items.countP (fun item => decide (item.year = some y)) := by
  induction items with
  | nil => rfl
  | cons x xs ih =>
    unfold countedYears at ih ⊢
    rw [List.filterMap_cons, List.countP_cons]
    by_cases hx : x.year = some y
    · rw [countedYear_eq_some.2 ⟨hy, hx⟩]
      simp [ih, hx]
    · cases hc : countedYear x with
      | none => simp [ih, hx]
      | some z =>
        have hz := countedYear_eq_some.1 hc
        have hne : z ≠ y := fun e => hx (e ▸ hz.2)
        simp [ih, hx, List.count_cons, hne]

theorem prepareTimelineData_eq (items : List Item) :
    prepareTimelineData items =
      ((firstOccurrences (countedYears items)).insertionSort (· ≤ ·)).map
        (fun y => (some y, JSVal.num (items.countP (fun item => decide (item.year = some y))))) := by
  unfold prepareTimelineData
  rw [yearCounts_eq_tallied, tallied_numerals, objectEntries_map_self]
  obtain ⟨σ, hσ, hord⟩ := ownKeyOrder_numerals (firstOccurrences (countedYears items))
  rw [hord, List.map_map, List.map_map]
  have hmap : σ.map (((fun e : String × JSVal => (parseInt e.1, e.2)) ∘
        fun k => (k, tallyValue k (((countedYears items).map numberToString).count k))) ∘
        numberToString) =
      σ.map (fun y => (some y,
        JSVal.num (items.countP (fun item => decide (item.year = some y))))) := by
    apply List.map_congr_left
    intro y hy
    have hy' : y ∈ countedYears items := mem_firstOccurrences.1 (hσ.mem_iff.1 hy)
    simp only [Function.comp, parseInt_numberToString, tallyValue_numeral,
      List.count_map_of_injective _ _ numberToString_injective,
      count_countedYears items y (mem_countedYears.1 hy').1]
  rw [hmap, jsSort_year_pairs, insertionSort_le_eq_of_perm hσ]


/-! ## Ranking -/

theorem tallied_of_no_inherited (tags : List String)
    (h : ∀ t ∈ tags, t ∉ objectPrototypeNames) :
    tallied tags = (firstOccurrences tags).map (fun k => (k, JSVal.num (tags.count k))) := by
  unfold tallied
  have hf : tags.filter (fun k => decide (k ≠ "__proto__")) = tags := by
    rw [List.filter_eq_self]
    intro k hk
    have : k ≠ "__proto__" := fun e => h k hk (by rw [e]; decide)
    simpa using this
  rw [hf]
  apply List.map_congr_left
  intro k hk
  simp [tallyValue, h k (mem_firstOccurrences.1 hk)]

theorem rankedEntries_of_no_inherited (tags : List String)
    (h : ∀ t ∈ tags, t ∉ objectPrototypeNames) :
    jsSort byCountDesc (objectEntries (tallied tags)) =
      ((ownKeyOrder (firstOccurrences tags)).insertionSort
        (fun a b => tags.count b ≤ tags.count a)).map
        (fun k => (k, JSVal.num (tags.count k))) := by
  rw [tallied_of_no_inherited tags h, objectEntries_map_self, jsSort_counts]

theorem slice0_sublist {α : Type} (l : List α) (stop : Int) : List.Sublist (slice0 l stop) l := by
  unfold slice0
  split <;> exact List.take_sublist _ _

theorem slice0_map {α β : Type} (f : α → β) (l : List α) (stop : Int) :
    slice0 (l.map f) stop = (slice0 l stop).map f := by
  unfold slice0
  split <;> simp [List.map_take]

theorem ownKeyOrder_filter_not_index (l : List String) :
    (ownKeyOrder l).filter (fun k => (arrayIndex k).isNone) =
      l.filter (fun k => (arrayIndex k).isNone) := by
  unfold ownKeyOrder
  rw [List.filter_append, List.filter_filter]
  have h1 : List.filter (fun k => (arrayIndex k).isNone)
      ((l.filter (fun k => (arrayIndex k).isSome)).insertionSort
        (fun a b => (arrayIndex a).getD 0 ≤ (arrayIndex b).getD 0)) = [] := by
    rw [List.filter_eq_nil_iff]
    intro k hk
    have := (List.mem_filter.1 ((List.mem_insertionSort _).1 hk)).2
    cases hk' : arrayIndex k <;> simp_all
  rw [h1, List.nil_append]
  apply List.filter_congr
  intro k _
  simp

theorem arrayIndex_eq_some {k : String} {n : Nat} (h : arrayIndex k = some n) :
    k = numberToString n := by
  unfold arrayIndex at h
  cases hp : parseInt k with
  | none => rw [hp] at h; simp at h
  | some m =>
    rw [hp] at h
    simp only at h
    split at h
    · rename_i hc
      cases h
      exact hc.1.symm
    · cases h

theorem ownKeyOrder_filter_index (l : List String) :
    (ownKeyOrder l).filter (fun k => (arrayIndex k).isSome) =
      (l.filter (fun k => (arrayIndex k).isSome)).insertionSort
        (fun a b => (arrayIndex a).getD 0 ≤ (arrayIndex b).getD 0) := by
  unfold ownKeyOrder
  rw [List.filter_append, List.filter_filter]
  have h2 : List.filter (fun k => (arrayIndex k).isSome && (arrayIndex k).isNone) l = [] := by
    rw [List.filter_eq_nil_iff]
    intro k _
    cases arrayIndex k <;> simp
  rw [h2, List.append_nil, List.filter_eq_self]
  intro k hk
  exact (List.mem_filter.1 ((List.mem_insertionSort _).1 hk)).2

theorem rankedBefore_insertionSort (tags : List String) :
    ((ownKeyOrder (firstOccurrences tags)).insertionSort
      (fun a b => tags.count b ≤ tags.count a)).Pairwise (RankedBefore tags) := by
  have hnd : (ownKeyOrder (firstOccurrences tags)).Nodup :=
    nodup_ownKeyOrder (nodup_firstOccurrences tags)
  have htotal : IsTotal String (fun a b => tags.count b ≤ tags.count a) :=
    ⟨fun a b => Nat.le_total _ _⟩
  have htrans : IsTrans String (fun a b => tags.count b ≤ tags.count a) :=
    ⟨fun a b c hab hbc => Nat.le_trans hbc hab⟩
  have hsorted := List.sorted_insertionSort (fun a b => tags.count b ≤ tags.count a)
    (ownKeyOrder (firstOccurrences tags))
  rw [List.pairwise_iff_forall_sublist]
  intro a b hab
  have hle : tags.count b ≤ tags.count a := List.pairwise_iff_forall_sublist.1 hsorted hab
  refine ⟨hle, fun htie => ?_⟩
  have hsub : List.Sublist [a, b] (ownKeyOrder (firstOccurrences tags)) :=
    insertionSort_stable _ hnd hab (by rw [htie])
  have hne : a ≠ b := List.pairwise_iff_forall_sublist.1 hnd hsub
  cases ha : arrayIndex a with
  | none =>
    cases hb : arrayIndex b with
    | none =>
      simp only
      have hfil := hsub.filter (fun k => (arrayIndex k).isNone)
      rw [ownKeyOrder_filter_not_index] at hfil
      have hab' : [a, b].filter (fun k => (arrayIndex k).isNone) = [a, b] := by
        simp [ha, hb]
      rw [hab'] at hfil
      exact hfil.trans (List.filter_sublist _)
    | some j =>
      simp only
      -- `a` lies in the second part of the key order and `b` in the first
      unfold ownKeyOrder at hsub
      obtain ⟨l₁, l₂, hl, h1, h2⟩ := List.sublist_append_iff.1 hsub
      cases l₁ with
      | nil =>
        simp only [List.nil_append] at hl
        subst hl
        have hbN : b ∈ (firstOccurrences tags).filter (fun k => (arrayIndex k).isNone) :=
          h2.subset (by simp)
        have := (List.mem_filter.1 hbN).2
        rw [hb] at this
        simp at this
      | cons x xs =>
        have hx : x = a := by
          have := congrArg List.head? hl
          simp at this
          exact this.symm
        subst hx
        have haS : x ∈ ((firstOccurrences tags).filter (fun k => (arrayIndex k).isSome)).insertionSort
            (fun a b => (arrayIndex a).getD 0 ≤ (arrayIndex b).getD 0) := h1.subset (by simp)
        have := (List.mem_filter.1 ((List.mem_insertionSort _).1 haS)).2
        rw [ha] at this
        simp at this
  | some i =>
    cases hb : arrayIndex b with
    | none => simp only
    | some j =>
      simp only
      have hfil := hsub.filter (fun k => (arrayIndex k).isSome)
      rw [ownKeyOrder_filter_index] at hfil
      have hab' : [a, b].filter (fun k => (arrayIndex k).isSome) = [a, b] := by
        simp [ha, hb]
      rw [hab'] at hfil
      have htot : IsTotal String (fun a b => (arrayIndex a).getD 0 ≤ (arrayIndex b).getD 0) :=
        ⟨fun a b => Nat.le_total _ _⟩
      have htr : IsTrans String (fun a b => (arrayIndex a).getD 0 ≤ (arrayIndex b).getD 0) :=
        ⟨fun a b c hab hbc => Nat.le_trans hab hbc⟩
      have hs := List.sorted_insertionSort
        (fun a b => (arrayIndex a).getD 0 ≤ (arrayIndex b).getD 0)
        ((firstOccurrences tags).filter (fun k => (arrayIndex k).isSome))
      have hij : (arrayIndex a).getD 0 ≤ (arrayIndex b).getD 0 :=
        List.pairwise_iff_forall_sublist.1 hs hfil
      rw [ha, hb] at hij
      simp only [Option.getD_some] at hij
      have hneq : i ≠ j := by
        intro e
        apply hne
        rw [arrayIndex_eq_some ha, arrayIndex_eq_some hb, e]
      omega

theorem getTopTagsForYear_of_no_inherited (items : List Item) (year : Nat) (topN : Int)
    (h : ∀ t ∈ tagSequence (itemsOfYear items year), t ∉ objectPrototypeNames) :
    getTopTagsForYear items year topN =
      (slice0 ((ownKeyOrder (firstOccurrences (tagSequence (itemsOfYear items year)))).insertionSort
        (fun a b => (tagSequence (itemsOfYear items year)).count b ≤
          (tagSequence (itemsOfYear items year)).count a)) topN).map
        (fun k => (k, JSVal.num ((tagSequence (itemsOfYear items year)).count k))) := by
  unfold getTopTagsForYear
  have hc : countTags (items.filter (fun item => decide (item.year = some year))) =
      tallied (tagSequence (itemsOfYear items year)) := countTags_eq_tallied _
  simp only [hc]
  have hid : (objectEntries (tallied (tagSequence (itemsOfYear items year)))).map
      (fun e => (e.1, e.2)) = objectEntries (tallied (tagSequence (itemsOfYear items year))) :=
    List.map_id _
  rw [hid, rankedEntries_of_no_inherited _ h, slice0_map]

theorem topTags_of_no_inherited (items : List Item) (topN : Int)
    (h : ∀ t ∈ tagSequence items, t ∉ objectPrototypeNames) :
    topTags items topN =
      slice0 ((ownKeyOrder (firstOccurrences (tagSequence items))).insertionSort
        (fun a b => (tagSequence items).count b ≤ (tagSequence items).count a)) topN := by
  unfold topTags
  have hc : countTags items = tallied (tagSequence items) := countTags_eq_tallied _
  rw [hc, rankedEntries_of_no_inherited _ h, slice0_map, List.map_map]
  exact List.map_id _


/-! ## The object `tagsByYear` -/

theorem lookup_setOwn {α : Type} (o : List (String × α)) (k k' : String) (v : α) :
    (setOwn o k v).lookup k' = if k' = k then some v else o.lookup k' := by
  induction o with
  | nil =>
    by_cases h : k' = k
    · subst h; simp [setOwn]
    · have : (k' == k) = false := by simpa using h
      simp [setOwn, List.lookup, this, h]
  | cons p ps ih =>
    obtain ⟨pk, pv⟩ := p
    unfold setOwn
    by_cases hpk : pk = k
    · subst hpk
      rw [if_pos rfl]
      by_cases h : k' = pk
      · subst h; simp
      · have : (k' == pk) = false := by simpa using h
        simp [List.lookup, this, h]
    · rw [if_neg hpk]
      by_cases h : k' = pk
      · subst h
        have hne : ¬ k' = k := hpk
        simp [hne]
      · have : (k' == pk) = false := by simpa using h
        simp only [List.lookup, this, ih]

theorem getProp_setProp (o : JSObject) (k k' : String) (v : JSVal) (hk : k ≠ "__proto__") :
    getProp (setProp o k v) k' = if k' = k then v else getProp o k' := by
  unfold getProp setProp
  rw [if_neg hk, lookup_setOwn]
  by_cases h : k' = k
  · simp [h]
  · simp [h]

theorem getProp_foldl_zero (tt : List String) (hp : "__proto__" ∉ tt) (o : JSObject)
    (t : String) :
    getProp (tt.foldl (fun o tag => setProp o tag (JSVal.num 0)) o) t =
      if t ∈ tt then JSVal.num 0 else getProp o t := by
  induction tt generalizing o with
  | nil => simp
  | cons x xs ih =>
    simp only [List.mem_cons, not_or] at hp
    rw [List.foldl_cons, ih hp.2, getProp_setProp _ _ _ _ (fun e => hp.1 e.symm)]
    by_cases h1 : t ∈ xs
    · simp [h1]
    · by_cases h2 : t = x
      · simp [h2]
      · simp [h1, h2]


theorem modifyOwn_modifyOwn {α : Type} (o : List (String × α)) (k : String) (f g : α → α) :
    modifyOwn (modifyOwn o k f) k g = modifyOwn o k (g ∘ f) := by
  unfold modifyOwn
  rw [List.map_map]
  apply List.map_congr_left
  intro p _
  by_cases h : p.1 = k <;> simp [Function.comp, h]

theorem modifyOwn_id {α : Type} (o : List (String × α)) (k : String) :
    modifyOwn o k (fun a => a) = o := by
  unfold modifyOwn
  conv_rhs => rw [← List.map_id o]
  apply List.map_congr_left
  intro p _
  by_cases h : p.1 = k
  · simp only [h, if_true, id]
    exact Prod.ext h.symm rfl
  · simp [h]

theorem foldl_incrementTag (tt : List String) (key : String) (tags : List String)
    (s : List (String × JSObject)) :
    tags.foldl (fun tby tag =>
        if tag ∈ tt then modifyOwn tby key (fun o => incrementTag o tag) else tby) s =
      modifyOwn s key
        (fun o => (tags.filter (fun tag => decide (tag ∈ tt))).foldl incrementTag o) := by
  induction tags generalizing s with
  | nil => simp [modifyOwn_id]
  | cons x xs ih =>
    rw [List.foldl_cons, ih]
    by_cases hx : x ∈ tt
    · rw [if_pos hx, modifyOwn_modifyOwn]
      congr 1
      funext o
      simp [List.filter_cons, hx]
    · rw [if_neg hx]
      congr 1
      funext o
      simp [List.filter_cons, hx]

theorem lookup_map_numeral {α : Type} (g : Nat → α) (l : List Nat) (y : Nat) :
    (l.map (fun n => (numberToString n, g n))).lookup (numberToString y) =
      if y ∈ l then some (g y) else none := by
  induction l with
  | nil => simp
  | cons x xs ih =>
    rw [List.map_cons, List.lookup_cons, ih]
    by_cases h : y = x
    · subst h; simp
    · have : (numberToString y == numberToString x) = false := by
        simpa using fun e => h (numberToString_injective e)
      simp [this, h]

theorem modifyOwn_map_numeral {α : Type} (g : Nat → α) (l : List Nat) (y : Nat) (f : α → α) :
    modifyOwn (l.map (fun n => (numberToString n, g n))) (numberToString y) f =
      l.map (fun n => (numberToString n, if n = y then f (g n) else g n)) := by
  unfold modifyOwn
  rw [List.map_map]
  apply List.map_congr_left
  intro n _
  by_cases h : n = y
  · subst h; simp
  · have : ¬ numberToString n = numberToString y := fun e => h (numberToString_injective e)
    simp [Function.comp, h, this]

theorem setOwn_map_numeral {α : Type} (g : Nat → α) (l : List Nat) (y : Nat) (v : α)
    (h : y ∉ l) :
    setOwn (l.map (fun n => (numberToString n, g n))) (numberToString y) v =
      l.map (fun n => (numberToString n, g n)) ++ [(numberToString y, v)] := by
  induction l with
  | nil => rfl
  | cons x xs ih =>
    simp only [List.mem_cons, not_or] at h
    have hne : ¬ numberToString x = numberToString y :=
      fun e => h.1 (numberToString_injective e).symm
    rw [List.map_cons, setOwn, if_neg hne, ih h.2]
    rfl

theorem itemsOfYear_append (items : List Item) (x : Item) (y : Nat) :
    itemsOfYear (items ++ [x]) y =
      if x.year = some y then itemsOfYear items y ++ [x] else itemsOfYear items y := by
  unfold itemsOfYear
  rw [List.filter_append]
  by_cases h : x.year = some y <;> simp [h]

theorem tagSequence_append (items : List Item) (x : Item) :
    tagSequence (items ++ [x]) = tagSequence items ++ x.tags := by
  unfold tagSequence
  simp [List.flatMap_append]

theorem yearRow_append (tt : List String) (tags more : List String) :
    yearRow tt (tags ++ more) =
      (more.filter (fun tag => decide (tag ∈ tt))).foldl incrementTag (yearRow tt tags) := by
  unfold yearRow
  rw [List.filter_append, List.foldl_append]

theorem itemsOfYear_eq_nil {items : List Item} {y : Nat} (hy : y ≠ 0)
    (h : y ∉ countedYears items) : itemsOfYear items y = [] := by
  unfold itemsOfYear
  rw [List.filter_eq_nil_iff]
  intro item hi
  have : ¬ item.year = some y := fun e => h (mem_countedYears.2 ⟨hy, item, hi, e⟩)
  simpa using this

theorem tagsByYear_eq (tt : List String) (items : List Item) :
    tagsByYear tt items =
      (firstOccurrences (countedYears items)).map
        (fun y => (numberToString y, yearRow tt (tagSequence (itemsOfYear items y)))) := by
  induction items using List.reverseRecOn with
  | nil => rfl
  | append_singleton items x ih =>
    unfold tagsByYear at ih ⊢
    rw [List.foldl_append, List.foldl_cons, List.foldl_nil, ih]
    have hcy : countedYears (items ++ [x]) =
        countedYears items ++ (countedYear x).toList := by
      unfold countedYears
      rw [List.filterMap_append]
      cases hc : countedYear x <;> simp [List.filterMap_cons, hc]
    cases hc : countedYear x with
    | none =>
      have hstep : tagsByYearStep tt ((firstOccurrences (countedYears items)).map
          (fun y => (numberToString y, yearRow tt (tagSequence (itemsOfYear items y))))) x =
          (firstOccurrences (countedYears items)).map
          (fun y => (numberToString y, yearRow tt (tagSequence (itemsOfYear items y)))) := by
        unfold tagsByYearStep
        cases hy : x.year with
        | none => rfl
        | some z =>
          by_cases hz : z = 0
          · simp [hz]
          · have := countedYear_eq_some.2 ⟨hz, hy⟩
            rw [hc] at this; cases this
      rw [hstep, hcy, hc]
      simp only [Option.toList, List.append_nil]
      apply List.map_congr_left
      intro y hy
      have hy0 : y ≠ 0 := (mem_countedYears.1 (mem_firstOccurrences.1 hy)).1
      have hne : ¬ x.year = some y := fun e => by
        have := countedYear_eq_some.2 ⟨hy0, e⟩
        rw [hc] at this; cases this
      rw [itemsOfYear_append, if_neg hne]
    | some y0 =>
      obtain ⟨hy0, hyear⟩ := countedYear_eq_some.1 hc
      rw [hcy, hc]
      simp only [Option.toList]
      rw [firstOccurrences_append_singleton]
      unfold tagsByYearStep
      simp only [hyear, hy0, if_false]
      rw [foldl_incrementTag, lookup_map_numeral]
      by_cases hin : y0 ∈ countedYears items
      · have hinF : y0 ∈ firstOccurrences (countedYears items) := mem_firstOccurrences.2 hin
        rw [if_pos hin, if_pos hinF]
        simp only [Option.isNone_some, Bool.false_eq_true, if_false]
        rw [modifyOwn_map_numeral]
        apply List.map_congr_left
        intro y _
        by_cases hy : y = y0
        · subst hy
          rw [if_pos rfl, itemsOfYear_append, if_pos hyear, tagSequence_append, yearRow_append]
        · have hne : ¬ x.year = some y := by
            rw [hyear]; intro e; exact hy (Option.some.inj e).symm
          rw [if_neg hy, itemsOfYear_append, if_neg hne]
      · have hinF : y0 ∉ firstOccurrences (countedYears items) :=
          fun h => hin (mem_firstOccurrences.1 h)
        rw [if_neg hin, if_neg hinF]
        simp only [Option.isNone_none, if_true]
        rw [setOwn_map_numeral _ _ _ _ hinF]
        unfold modifyOwn
        rw [List.map_append, List.map_append, List.map_map]
        congr 1
        · apply List.map_congr_left
          intro y hy
          have hyne : y ≠ y0 := fun e => hinF (e ▸ hy)
          have hne : ¬ x.year = some y := by
            rw [hyear]; intro e; exact hyne (Option.some.inj e).symm
          have hk : ¬ numberToString y = numberToString y0 :=
            fun e => hyne (numberToString_injective e)
          simp only [Function.comp, hk, if_false]
          rw [itemsOfYear_append, if_neg hne]
        · simp only [List.map_cons, List.map_nil, if_true]
          rw [itemsOfYear_append, if_pos hyear, tagSequence_append,
            itemsOfYear_eq_nil hy0 hin, yearRow_append]
          rfl


/-! ## Stream graph rows -/

theorem getProp_foldl_incrementTag (tt : List String) (hp : "__proto__" ∉ tt)
    (seq : List String) (hseq : ∀ s ∈ seq, s ∈ tt) (t : String) (ht : t ∈ tt) :
    getProp (seq.foldl incrementTag (zeroRow tt)) t = JSVal.num (seq.count t) := by
  induction seq using List.reverseRecOn generalizing t with
  | nil =>
    unfold zeroRow
    rw [List.foldl_nil, getProp_foldl_zero tt hp, if_pos ht]
    rfl
  | append_singleton seq s ih =>
    have hseq' : ∀ s ∈ seq, s ∈ tt := fun a ha => hseq a (List.mem_append_left _ ha)
    have hs : s ∈ tt := hseq s (by simp)
    have hsp : s ≠ "__proto__" := fun e => hp (e ▸ hs)
    rw [List.foldl_append, List.foldl_cons, List.foldl_nil]
    rw [show incrementTag (seq.foldl incrementTag (zeroRow tt)) s =
      setProp (seq.foldl incrementTag (zeroRow tt)) s
        (getProp (seq.foldl incrementTag (zeroRow tt)) s).increment from rfl]
    rw [getProp_setProp _ _ _ _ hsp, ih hseq' s hs, ih hseq' t ht]
    by_cases h : t = s
    · subst h
      simp [JSVal.increment, JSVal.toNumber, List.count_append]
    · simp [h, List.count_append, List.count_singleton]

theorem orZero_num (c : Nat) : (JSVal.num c).orZero = JSVal.num c := by
  unfold JSVal.orZero JSVal.truthy
  by_cases h : c = 0
  · simp [h]
  · simp [h]

theorem getProp_yearRow (tt : List String) (hp : "__proto__" ∉ tt) (tags : List String)
    (t : String) (ht : t ∈ tt) :
    getProp (yearRow tt tags) t = JSVal.num (tags.count t) := by
  unfold yearRow
  rw [getProp_foldl_incrementTag tt hp _ (fun s hs => by simpa using (List.mem_filter.1 hs).2)
    t ht, List.count_filter (by simpa using ht)]

theorem mem_objectEntries_tallied {tags : List String} {e : String × JSVal}
    (h : e ∈ objectEntries (tallied tags)) : e.1 ≠ "__proto__" ∧ e.1 ∈ tags := by
  unfold tallied at h
  rw [objectEntries_map_self] at h
  obtain ⟨k, hk, rfl⟩ := List.mem_map.1 h
  have := List.mem_filter.1 (mem_firstOccurrences.1 (mem_ownKeyOrder.1 hk))
  exact ⟨by simpa using this.2, this.1⟩

theorem mem_topTags {items : List Item} {topN : Int} {t : String}
    (h : t ∈ topTags items topN) : t ≠ "__proto__" ∧ t ∈ tagSequence items := by
  unfold topTags at h
  obtain ⟨e, he, rfl⟩ := List.mem_map.1 h
  have he2 : e ∈ objectEntries (countTags items) :=
    (List.perm_insertionSort _ _).mem_iff.1 ((slice0_sublist _ _).subset he)
  rw [countTags_eq_tallied] at he2
  exact mem_objectEntries_tallied he2

theorem proto_not_mem_topTags (items : List Item) (topN : Int) :
    "__proto__" ∉ topTags items topN :=
  fun h => (mem_topTags h).1 rfl

theorem chartYears_sorted (items : List Item) : (chartYears items).Pairwise (· < ·) :=
  sorted_lt_insertionSort (nodup_firstOccurrences _)

theorem mem_chartYears {items : List Item} {y : Nat} :
    y ∈ chartYears items ↔ y ≠ 0 ∧ ∃ item ∈ items, item.year = some y := by
  unfold chartYears
  rw [List.mem_insertionSort, mem_firstOccurrences, mem_countedYears]

theorem prepareStreamGraphData_eq (items : List Item) (topN : Int) :
    prepareStreamGraphData items topN =
      { headers := "Year" :: topTags items topN,
        data := (chartYears items).map (fun y =>
          (numberToString y, (topTags items topN).map (fun t =>
            JSVal.num ((tagSequence (itemsOfYear items y)).count t)))) } := by
  unfold prepareStreamGraphData
  simp only
  congr 1
  rw [tagsByYear_eq, objectKeys]
  rw [List.map_map]
  have hk : ((fun p : String × JSObject => p.1) ∘ fun y =>
      (numberToString y, yearRow (topTags items topN) (tagSequence (itemsOfYear items y)))) =
      numberToString := rfl
  have hk' : (Prod.fst ∘ fun y =>
      (numberToString y, yearRow (topTags items topN) (tagSequence (itemsOfYear items y)))) =
      numberToString := rfl
  rw [hk']
  obtain ⟨σ, hσ, hord⟩ := ownKeyOrder_numerals (firstOccurrences (countedYears items))
  rw [hord, List.map_map]
  have hparse : σ.map (parseInt ∘ numberToString) = σ.map some := by
    apply List.map_congr_left
    intro y _
    exact parseInt_numberToString y
  rw [hparse, jsSort_years, insertionSort_le_eq_of_perm hσ, List.map_map]
  unfold chartYears
  apply List.map_congr_left
  intro y hy
  have hyF : y ∈ firstOccurrences (countedYears items) := (List.mem_insertionSort _).1 hy
  simp only [Function.comp, jsNumberToString]
  rw [lookup_map_numeral, if_pos hyF]
  congr 1
  apply List.map_congr_left
  intro t ht
  simp only [Option.getD_some]
  rw [getProp_yearRow _ (proto_not_mem_topTags items topN) _ _ ht, orZero_num]


/-! ## General forms -/

theorem sum_count_firstOccurrences (ys : List Nat) :
    (((firstOccurrences ys).insertionSort (· ≤ ·)).map (fun y => ys.count y)).sum = ys.length := by
  have hperm : ((firstOccurrences ys).insertionSort (· ≤ ·)).Perm ys.dedup := by
    refine (List.perm_insertionSort _ _).trans ?_
    rw [List.perm_ext_iff_of_nodup (nodup_firstOccurrences ys) (List.nodup_dedup ys)]
    intro a
    rw [mem_firstOccurrences, List.mem_dedup]
  rw [(hperm.map _).sum_eq, List.sum_map_count_dedup_eq_length]

theorem length_countedYears (items : List Item) :
    (countedYears items).length =
      items.countP (fun item => decide (item.year ≠ none ∧ item.year ≠ some 0)) := by
  induction items with
  | nil => rfl
  | cons x xs ih =>
    unfold countedYears at ih ⊢
    rw [List.filterMap_cons, List.countP_cons]
    cases hc : countedYear x with
    | none =>
      have : ¬ (x.year ≠ none ∧ x.year ≠ some 0) := by
        rintro ⟨h1, h2⟩
        cases hy : x.year with
        | none => exact h1 hy
        | some y =>
          have hy0 : y ≠ 0 := fun e => h2 (by rw [hy, e])
          have := countedYear_eq_some.2 ⟨hy0, hy⟩
          rw [hc] at this; cases this
      simp only [ih, this, decide_False, Bool.false_eq_true, if_false, Nat.add_zero]
    | some y =>
      obtain ⟨hy0, hy⟩ := countedYear_eq_some.1 hc
      have : x.year ≠ none ∧ x.year ≠ some 0 := by
        rw [hy]
        exact ⟨by simp, by simpa using hy0⟩
      rw [List.length_cons, ih, if_pos (decide_eq_true this)]

theorem yearsInRange_processItems (raw : List RawItem) : YearsInRange (processItems raw) := by
  intro item hitem
  simp only [processItems, List.mem_filter, List.mem_map, decide_eq_true_eq] at hitem
  obtain ⟨⟨r, _, rfl⟩, hy⟩ := hitem
  cases hyear : (processItem r).year with
  | none => exact absurd hyear hy
  | some y =>
    have := extractYear_le hyear
    simp only [Option.getD_some]
    omega

/-- For years in range, the counts of the timeline sum to the number of items whose year
is present and is not 0. -/
theorem prepareTimelineData_count_sum (items : List Item) (_hyears : YearsInRange items) :
    ((prepareTimelineData items).map countOf).sum =
      items.countP (fun item => decide (item.year ≠ none ∧ item.year ≠ some 0)) := by
  rw [prepareTimelineData_eq, List.map_map, ← length_countedYears,
    ← sum_count_firstOccurrences (countedYears items)]
  congr 1
  apply List.map_congr_left
  intro y hy
  have hy' : y ∈ countedYears items :=
    mem_firstOccurrences.1 ((List.mem_insertionSort _).1 hy)
  simp only [Function.comp, countOf, JSVal.toNumber, Option.getD_some]
  exact (count_countedYears items y (mem_countedYears.1 hy').1).symm

theorem slice0_natCast {α : Type} (l : List α) (n : Nat) : slice0 l (n : Int) = l.take n := by
  have : ¬ ((n : Int) < 0) := by omega
  simp [slice0, this]

/-- Without tags named like a member of `Object.prototype`, `getTopTagsForYear` returns at
most `topN` pairs for `topN ≥ 0`, with counts that do not increase along the result, each
the number of occurrences of its tag among the items of the year. -/
theorem getTopTagsForYear_counts_of_no_inherited (items : List Item) (year : Nat) (n : Nat)
    (h : ∀ t ∈ tagSequence (itemsOfYear items year), t ∉ objectPrototypeNames) :
    (getTopTagsForYear items year n).length ≤ n ∧
    (∀ e ∈ getTopTagsForYear items year n,
      e.2 = JSVal.num ((tagSequence (itemsOfYear items year)).count e.1)) ∧
    ((getTopTagsForYear items year n).map Prod.fst).Pairwise (fun a b =>
      (tagSequence (itemsOfYear items year)).count b ≤
        (tagSequence (itemsOfYear items year)).count a) := by
  rw [getTopTagsForYear_of_no_inherited items year n h]
  refine ⟨?_, ?_, ?_⟩
  · rw [slice0_natCast, List.length_map, List.length_take]
    exact Nat.min_le_left _ _
  · intro e he
    obtain ⟨k, _, rfl⟩ := List.mem_map.1 he
    rfl
  · rw [List.map_map]
    have hid : (Prod.fst ∘ fun k =>
        (k, JSVal.num ((tagSequence (itemsOfYear items year)).count k))) = id := rfl
    rw [hid, List.map_id]
    exact ((rankedBefore_insertionSort _).sublist (slice0_sublist _ _)).imp (fun hab => hab.1)

theorem slice0_negSucc {α : Type} (l : List α) (k n : Nat)
    (h : (slice0 l (n : Int)).length < n) :
    slice0 l (Int.negSucc k) =
      (slice0 l (n : Int)).take ((slice0 l (n : Int)).length - (k + 1)) := by
  rw [slice0_natCast] at h ⊢
  have hlen : l.length < n := by
    rw [List.length_take] at h
    omega
  rw [List.take_of_length_le (Nat.le_of_lt hlen)]
  have hneg : Int.negSucc k < 0 := Int.negSucc_lt_zero k
  have hk : (Int.negSucc k).natAbs = k + 1 := rfl
  rw [slice0, if_pos hneg, hk]

/-- For years in range, every row of the stream graph holds one value for each tag label
of the headers, and for `topN ≥ 0` their number is the smaller of `topN` and the number of
distinct tags other than `__proto__`. -/
theorem stream_row_lengths (items : List Item) (n : Nat) (_hyears : YearsInRange items) :
    (∀ row ∈ (prepareStreamGraphData items n).data,
      row.2.length = (prepareStreamGraphData items n).headers.tail.length) ∧
    (prepareStreamGraphData items n).headers.tail.length =
      min n (firstOccurrences
        ((tagSequence items).filter (fun t => decide (t ≠ "__proto__")))).length := by
  constructor
  · intro row hrow
    rw [prepareStreamGraphData_eq] at hrow ⊢
    obtain ⟨y, _, rfl⟩ := List.mem_map.1 hrow
    simp
  · have hh : (prepareStreamGraphData items n).headers.tail = topTags items n := rfl
    rw [hh]
    unfold topTags
    rw [countTags_eq_tallied]
    unfold tallied
    rw [objectEntries_map_self]
    rw [slice0_natCast, List.length_map, List.length_take, jsSort, List.length_insertionSort,
      List.length_map, (ownKeyOrder_perm _).length_eq]
    rfl


/-! ## Properties of `processItems` -/

/-- C8, amended: the extracted year is the value of the first four digits of the first
(leftmost) run of at least four consecutive digits of the date string, and it is absent
when the date string is missing or has no such run; `Spring 1999 issue` gives 1999 and
`n.d.` gives no year, so that record is dropped. -/
theorem extractYear_first_four_digits :
    (∀ date : Option String, extractYear date = yearOfFirstRunOfAtLeastFour date) ∧
    extractYear none = none ∧
    extractYear (some "Spring 1999 issue") = some 1999 ∧
    extractYear (some "n.d.") = none ∧
    processItems [rawWithDate (some "n.d.")] = [] :=
  ⟨extractYear_eq_spec, rfl, by decide, by decide, by decide⟩

/-- C8 as stated fails: for the date `12345` the code extracts 1234, although the string
has no run of exactly four digits. -/
theorem extractYear_not_exactly_four :
    extractYear (some "12345") = some 1234 ∧
    yearOfFirstRunOfExactlyFour (some "12345") = none := by
  decide

/-- C9, amended: every item returned by `processItems` has a present year between 0 and
9999, and the returned items are, in the original order, exactly the records whose date
string contains four consecutive digits. -/
theorem processItems_year_present (raw : List RawItem) :
    (∀ item ∈ processItems raw, ∃ y, item.year = some y ∧ y ≤ 9999) ∧
    processItems raw =
      (raw.filter (fun r => containsFourDigits r.data.date)).map processItem := by
  refine ⟨?_, processItems_eq_filter_map raw⟩
  intro item hitem
  simp only [processItems, List.mem_filter, List.mem_map, decide_eq_true_eq] at hitem
  obtain ⟨⟨r, _, rfl⟩, hy⟩ := hitem
  cases hyear : (processItem r).year with
  | none => exact absurd hyear hy
  | some y => exact ⟨y, rfl, extractYear_le hyear⟩

/-- C9 as stated fails: the date `0999` yields an item whose year is 999, below 1000. -/
theorem processItems_year_below_1000 :
    (processItems [rawWithDate (some "0999")]).map (fun item => item.year) = [some 999] ∧
    ¬ (1000 ≤ 999) := by
  decide

/-- C10, amended: `creators` is the in-order list of display names, where a creator's
display name is its combined name when that is a non-empty string (taken verbatim,
untrimmed) and otherwise the trimmed `firstName + ' ' + lastName`, creators whose joined
name is empty being excluded; no name in `creators` is empty, and a name that does not
come from a combined name field neither starts nor ends with white space. A missing
creator list yields the empty list. -/
theorem extractCreators_display_names (cs : List RawCreator) :
    extractCreators none = [] ∧
    extractCreators (some cs) = cs.filterMap displayName ∧
    (∀ n ∈ extractCreators (some cs), n ≠ "") ∧
    (∀ c ∈ cs, c.name.getD "" = "" → ∀ ch,
      (creatorName c).data.head? = some ch ∨ (creatorName c).data.getLast? = some ch →
      isWhiteSpace ch = false) ∧
    extractCreators (some [{ name := none, firstName := some "", lastName := some "" }]) = [] ∧
    extractCreators (some [{ name := some "Ada Lovelace", firstName := none, lastName := none }])
      = ["Ada Lovelace"] := by
  refine ⟨rfl, extractCreators_eq_filterMap cs, ?_, ?_, by decide, by decide⟩
  · intro n hn
    simp only [extractCreators, List.mem_filter, decide_eq_true_eq] at hn
    exact hn.2
  · intro c _ hname ch hch
    have hc : creatorName c = trim (strOr c.firstName "" ++ " " ++ strOr c.lastName "") := by
      simp [creatorName, strOr_empty, hname]
    rw [hc] at hch
    rcases hch with h | h
    · exact trim_head_not_whiteSpace _ _ h
    · exact trim_getLast_not_whiteSpace _ _ h

/-- C10 as stated fails: a combined name consisting of one space is kept verbatim,
although it is empty after trimming. -/
theorem extractCreators_keeps_blank_name :
    extractCreators (some [{ name := some " ", firstName := none, lastName := none }]) = [" "] ∧
    trim " " = "" := by
  decide

/-! ## Properties of `prepareTimelineData` -/

/-- C1, evaluated where it fails: a record dated `0000-00-00` is kept by `processItems`
with year 0, and `prepareTimelineData` does not count it, so the counts sum to 0 while
the item collection has one item. -/
theorem prepareTimelineData_skips_year_zero :
    (processItems [rawWithDate (some "0000-00-00")]).map (fun item => item.year) = [some 0] ∧
    (processItems [rawWithDate (some "0000-00-00")]).length = 1 ∧
    prepareTimelineData (processItems [rawWithDate (some "0000-00-00")]) = [] ∧
    ((prepareTimelineData (processItems [rawWithDate (some "0000-00-00")])).map countOf).sum
      = 0 := by
  decide

/-- C2: for an item list whose years are in range (safe integers, as all years that
`processItems` produces are), `prepareTimelineData` returns the pairs `[y, count]` of a
strictly ascending list of years, the count of `y` being the number of items whose year
is `y`, which is at least 1; every year other than 0 that some item has is among them.
For the three items of scenario A the result is `[(2020, 2), (2021, 1)]`. -/
theorem prepareTimelineData_sorted_counts (items : List Item) (_hyears : YearsInRange items) :
    (∃ ys : List Nat, ys.Pairwise (· < ·) ∧
      prepareTimelineData items = ys.map (fun y =>
        (some y, JSVal.num (items.countP (fun item => decide (item.year = some y))))) ∧
      (∀ y ∈ ys, 1 ≤ items.countP (fun item => decide (item.year = some y))) ∧
      (∀ item ∈ items, ∀ y, item.year = some y → y ≠ 0 → y ∈ ys)) ∧
    prepareTimelineData scenarioItems = [(some 2020, JSVal.num 2), (some 2021, JSVal.num 1)] := by
  refine ⟨⟨chartYears items, chartYears_sorted items, prepareTimelineData_eq items, ?_, ?_⟩,
    by decide⟩
  · intro y hy
    obtain ⟨_, item, hi, hyear⟩ := mem_chartYears.1 hy
    apply List.countP_pos_iff.2
    exact ⟨item, hi, by simpa using hyear⟩
  · intro item hi y hyear h0
    exact mem_chartYears.2 ⟨h0, item, hi, hyear⟩

/-- The years of the items of scenario A are in range, and the conclusion of
`prepareTimelineData_sorted_counts` follows for them. -/
theorem prepareTimelineData_sorted_counts_witness :
    YearsInRange scenarioItems ∧
    ((∃ ys : List Nat, ys.Pairwise (· < ·) ∧
      prepareTimelineData scenarioItems = ys.map (fun y =>
        (some y, JSVal.num (scenarioItems.countP (fun item => decide (item.year = some y))))) ∧
      (∀ y ∈ ys, 1 ≤ scenarioItems.countP (fun item => decide (item.year = some y))) ∧
      (∀ item ∈ scenarioItems, ∀ y, item.year = some y → y ≠ 0 → y ∈ ys)) ∧
    prepareTimelineData scenarioItems = [(some 2020, JSVal.num 2), (some 2021, JSVal.num 1)]) :=
  ⟨by unfold YearsInRange; decide,
    prepareTimelineData_sorted_counts scenarioItems (by unfold YearsInRange; decide)⟩

/-! ## Properties of the rankings -/

/-- C3, amended: when no tag is the name of a member of `Object.prototype`, the tags
returned by `getTopTagsForYear` (whose counts are their numbers of occurrences among the
items of the year) and the tag labels of `prepareStreamGraphData` are in descending
order of their number of occurrences, and two tags that occur equally often appear in
the key order of the counting object: tags that are array indices first, in ascending
numeric order, then the other tags in order of first occurrence. -/
theorem ranking_order_of_ties (items : List Item) (year : Nat) (topN : Int)
    (h : ∀ item ∈ items, ∀ t ∈ item.tags, t ∉ objectPrototypeNames) :
    ((getTopTagsForYear items year topN).map Prod.fst).Pairwise
      (RankedBefore (tagSequence (itemsOfYear items year))) ∧
    (∀ e ∈ getTopTagsForYear items year topN,
      e.2 = JSVal.num ((tagSequence (itemsOfYear items year)).count e.1)) ∧
    ((prepareStreamGraphData items topN).headers.tail).Pairwise
      (RankedBefore (tagSequence items)) := by
  have hall : ∀ t ∈ tagSequence items, t ∉ objectPrototypeNames := by
    intro t ht
    obtain ⟨item, hi, htag⟩ := List.mem_flatMap.1 ht
    exact h item hi t htag
  have hyear : ∀ t ∈ tagSequence (itemsOfYear items year), t ∉ objectPrototypeNames := by
    intro t ht
    obtain ⟨item, hi, htag⟩ := List.mem_flatMap.1 ht
    exact h item (List.mem_filter.1 hi).1 t htag
  refine ⟨?_, ?_, ?_⟩
  · rw [getTopTagsForYear_of_no_inherited items year topN hyear, List.map_map]
    have hid : (Prod.fst ∘ fun k =>
        (k, JSVal.num ((tagSequence (itemsOfYear items year)).count k))) = id := rfl
    rw [hid, List.map_id]
    exact (rankedBefore_insertionSort _).sublist (slice0_sublist _ _)
  · intro e he
    rw [getTopTagsForYear_of_no_inherited items year topN hyear] at he
    obtain ⟨k, _, rfl⟩ := List.mem_map.1 he
    rfl
  · have hh : (prepareStreamGraphData items topN).headers.tail = topTags items topN := rfl
    rw [hh, topTags_of_no_inherited items topN hall]
    exact (rankedBefore_insertionSort _).sublist (slice0_sublist _ _)

/-- The hypothesis of `ranking_order_of_ties` holds for an item whose tags `b` and `1`
occur once each, and the conclusion follows there. -/
theorem ranking_order_of_ties_witness :
    (∀ item ∈ [itemOf (some 2020) ["b", "1"]], ∀ t ∈ item.tags, t ∉ objectPrototypeNames) ∧
    (((getTopTagsForYear [itemOf (some 2020) ["b", "1"]] 2020 5).map Prod.fst).Pairwise
      (RankedBefore (tagSequence (itemsOfYear [itemOf (some 2020) ["b", "1"]] 2020))) ∧
    (∀ e ∈ getTopTagsForYear [itemOf (some 2020) ["b", "1"]] 2020 5,
      e.2 = JSVal.num ((tagSequence (itemsOfYear [itemOf (some 2020) ["b", "1"]] 2020)).count e.1)) ∧
    ((prepareStreamGraphData [itemOf (some 2020) ["b", "1"]] 5).headers.tail).Pairwise
      (RankedBefore (tagSequence [itemOf (some 2020) ["b", "1"]]))) :=
  ⟨by decide, ranking_order_of_ties [itemOf (some 2020) ["b", "1"]] 2020 5 (by decide)⟩

/-- C3 as stated fails: the tags `b` and `1` occur once each and `b` is encountered
first, yet both rankings put `1` first. -/
theorem ranking_puts_array_index_first :
    getTopTagsForYear [itemOf (some 2020) ["b", "1"]] 2020 5 =
      [("1", JSVal.num 1), ("b", JSVal.num 1)] ∧
    (prepareStreamGraphData [itemOf (some 2020) ["b", "1"]] 5).headers = ["Year", "1", "b"] ∧
    firstOccurrences (tagSequence [itemOf (some 2020) ["b", "1"]]) = ["b", "1"] := by
  decide

/-- C6, evaluated where it fails: for one item of 2020 tagged `constructor` the returned
count is not the number 1 but the string made of the inherited function and `1`. -/
theorem getTopTagsForYear_inherited_name :
    getTopTagsForYear [itemOf (some 2020) ["constructor"]] 2020 5 =
      [("constructor", JSVal.text "constructor" 1)] ∧
    textString "constructor" 1 = "function Object() \x7b [native code] \x7d1" ∧
    (tagSequence (itemsOfYear [itemOf (some 2020) ["constructor"]] 2020)).count "constructor" = 1 := by
  decide

/-- C7, amended: for `topN = 0` the result of `getTopTagsForYear` is empty and the
headers of `prepareStreamGraphData` are just `Year`. For a negative `topN = -(k+1)` the
call `slice(0, topN)` only drops the last `k + 1` ranked tags: the result is the complete
ranking (what a call with a `topN = n` returns that yields fewer than `n` tags, as every
`n` above the number of counted tags does) without its last `k + 1` entries, so the
number of tags left is the number of counted tags minus `k + 1`, zero only when there are
no more counted tags than that. -/
theorem ranking_topN_zero_or_negative (items : List Item) (year : Nat) :
    getTopTagsForYear items year 0 = [] ∧
    (prepareStreamGraphData items 0).headers = ["Year"] ∧
    (∀ k n : Nat, (getTopTagsForYear items year (n : Int)).length < n →
      getTopTagsForYear items year (Int.negSucc k) =
        (getTopTagsForYear items year (n : Int)).take
          ((getTopTagsForYear items year (n : Int)).length - (k + 1))) ∧
    (∀ k n : Nat, (prepareStreamGraphData items (n : Int)).headers.tail.length < n →
      (prepareStreamGraphData items (Int.negSucc k)).headers.tail =
        (prepareStreamGraphData items (n : Int)).headers.tail.take
          ((prepareStreamGraphData items (n : Int)).headers.tail.length - (k + 1))) ∧
    (∀ n : Nat, (objectEntries (countTags (itemsOfYear items year))).length < n →
      (getTopTagsForYear items year (n : Int)).length < n) ∧
    (∀ n : Nat, (objectEntries (countTags items)).length < n →
      (prepareStreamGraphData items (n : Int)).headers.tail.length < n) ∧
    (∀ k : Nat, (getTopTagsForYear items year (Int.negSucc k)).length =
      (objectEntries (countTags (itemsOfYear items year))).length - (k + 1)) ∧
    (∀ k : Nat, (prepareStreamGraphData items (Int.negSucc k)).headers.tail.length =
      (objectEntries (countTags items)).length - (k + 1)) := by
  have hhead : ∀ topN : Int,
      (prepareStreamGraphData items topN).headers.tail = topTags items topN := fun _ => rfl
  refine ⟨?_, ?_, ?_, ?_, ?_, ?_, ?_, ?_⟩
  · simp [getTopTagsForYear, slice0]
  · simp [prepareStreamGraphData, topTags, slice0]
  · intro k n hn
    exact slice0_negSucc _ k n hn
  · intro k n hn
    rw [hhead] at hn ⊢
    rw [hhead]
    unfold topTags at hn ⊢
    rw [List.length_map] at hn
    rw [slice0_negSucc _ k n hn, List.map_take, List.length_map]
  · intro n hn
    simp only [getTopTagsForYear, slice0_natCast, List.length_take, jsSort,
      List.length_insertionSort, List.length_map, itemsOfYear] at hn ⊢
    omega
  · intro n hn
    rw [hhead]
    simp only [topTags, slice0_natCast, List.length_take, jsSort,
      List.length_insertionSort, List.length_map] at hn ⊢
    omega
  · intro k
    have hneg : Int.negSucc k < 0 := Int.negSucc_lt_zero k
    simp only [getTopTagsForYear, slice0, if_pos hneg, List.length_take, jsSort,
      List.length_insertionSort, List.length_map, itemsOfYear]
    have : (Int.negSucc k).natAbs = k + 1 := rfl
    rw [this]
    omega
  · intro k
    have hneg : Int.negSucc k < 0 := Int.negSucc_lt_zero k
    rw [hhead]
    simp only [topTags, slice0, if_pos hneg, List.length_take, jsSort,
      List.length_insertionSort, List.length_map]
    have : (Int.negSucc k).natAbs = k + 1 := rfl
    rw [this]
    omega

/-- C7 as stated fails: with two tags and `topN = -1` both rankings keep one tag. -/
theorem ranking_negative_topN_not_empty :
    getTopTagsForYear [itemOf (some 2020) ["a", "b"]] 2020 (-1) = [("a", JSVal.num 1)] ∧
    (prepareStreamGraphData [itemOf (some 2020) ["a", "b"]] (-1)).headers = ["Year", "a"] := by
  decide

/-! ## Properties of the stream graph rows -/

/-- C4, amended: for an item list whose years are in range (safe integers, as all years
that `processItems` produces are), the rows of `prepareStreamGraphData` are those of a
strictly ascending list of years, every year other than 0 that some item has being among
them, and in the row of year `y` the value at the position of tag label `t` is the number
of occurrences of `t` in the tag lists of the items whose year is `y` (a tag that an item
lists twice counts twice). -/
theorem stream_rows_count_occurrences (items : List Item) (topN : Int)
    (_hyears : YearsInRange items) :
    ∃ ys : List Nat, ys.Pairwise (· < ·) ∧
      (prepareStreamGraphData items topN).data = ys.map (fun y =>
        (numberToString y, (prepareStreamGraphData items topN).headers.tail.map (fun t =>
          JSVal.num (((items.filter (fun item => decide (item.year = some y))).flatMap
            (fun item => item.tags)).count t)))) ∧
      (∀ item ∈ items, ∀ y, item.year = some y → y ≠ 0 → y ∈ ys) := by
  refine ⟨chartYears items, chartYears_sorted items, ?_, ?_⟩
  · rw [prepareStreamGraphData_eq]
    rfl
  · intro item hi y hyear h0
    exact mem_chartYears.2 ⟨h0, item, hi, hyear⟩

/-- The years of the items of scenario A are in range, and the conclusion of
`stream_rows_count_occurrences` follows for them with `topN = 5`. -/
theorem stream_rows_count_occurrences_witness :
    YearsInRange scenarioItems ∧
    (∃ ys : List Nat, ys.Pairwise (· < ·) ∧
      (prepareStreamGraphData scenarioItems 5).data = ys.map (fun y =>
        (numberToString y, (prepareStreamGraphData scenarioItems 5).headers.tail.map (fun t =>
          JSVal.num (((scenarioItems.filter (fun item => decide (item.year = some y))).flatMap
            (fun item => item.tags)).count t)))) ∧
      (∀ item ∈ scenarioItems, ∀ y, item.year = some y → y ≠ 0 → y ∈ ys)) :=
  ⟨by unfold YearsInRange; decide,
    stream_rows_count_occurrences scenarioItems 5 (by unfold YearsInRange; decide)⟩

/-- C4 as stated fails: one item of 2020 lists the tag `a` twice; the row of 2020 holds
2 for `a`, while one item of 2020 carries `a`. -/
theorem stream_row_counts_repeated_tag :
    prepareStreamGraphData [itemOf (some 2020) ["a", "a"]] 1 =
      { headers := ["Year", "a"], data := [("2020", [JSVal.num 2])] } ∧
    ([itemOf (some 2020) ["a", "a"]].filter
      (fun item => decide (item.year = some 2020 ∧ "a" ∈ item.tags))).length = 1 := by
  decide

/-- C5, evaluated where it fails: for one item of 2020 tagged `__proto__` and `topN = 1`
there is one distinct tag, so the claim asks for one value in each row, but the headers
are just `Year` and the row of 2020 holds no value. -/
theorem stream_rows_drop_proto_tag :
    prepareStreamGraphData [itemOf (some 2020) ["__proto__"]] 1 =
      { headers := ["Year"], data := [("2020", [])] } ∧
    (firstOccurrences (tagSequence [itemOf (some 2020) ["__proto__"]])).length = 1 := by
  decide

end ZoteroVisualizer
